import Mathlib

/-!
Verification of the torpanel scheduling core (backend/app/routes/booking.py and
backend/app/routes/baybooking.py) against its natural-language specification.

Modelling conventions (shallow embedding):
* Instants (Postgres TIMESTAMPTZ values, Python aware datetimes) are integers:
  minutes since an epoch whose day 0 is a Monday.  The source manipulates times
  at minute granularity (buffers, working-hour wall clocks, a 1-minute scan
  step); seconds and microseconds are always zero on every value the engine
  constructs, so minute resolution is faithful.
* A timezone (Python ZoneInfo) is modelled as a fixed UTC offset in minutes.
  Converting an instant t to local wall-clock time is t + tz.
* Database tables are lists; a SQLAlchemy query with filters is a List.filter
  over the table in row order, .first is List.find?, .count is the length of
  the filtered list.
* Python booleans/ints translate to Bool/Int; `x or 0` on a non-nullable int
  column is the identity and is dropped; `x or d` on an Option is modelled
  with Python falsiness (none and 0 / empty string are falsy) where the
  distinction matters.
-/

namespace Torpanel

/-- Minutes since the epoch (UTC); day 0 of the local calendar is a Monday. -/
abbrev Instant := Int

/-- models.BookingStatus -/
inductive BookingStatus where
  | booked | in_progress | completed | cancelled | no_show
deriving DecidableEq, Repr

/-- models.UserRole -/
inductive UserRole where
  | owner | workshop_user | workshop_employee
deriving DecidableEq, Repr

/-- booking.AssignmentStrategy -/
inductive AssignmentStrategy where
  | random | round_robin | least_busy
deriving DecidableEq, Repr

/-- models.BayBooking (the columns the scheduling core reads or writes). -/
structure BayBooking where
  id : Nat
  workshop_id : Nat
  bay_id : Nat
  title : String
  description : Option String := none
  start_at : Instant
  end_at : Instant
  buffer_before_min : Int := 0
  buffer_after_min : Int := 0
  status : BookingStatus := .booked
  customer_id : Option Nat := none
  car_id : Option Nat := none
  service_log_id : Option Nat := none
  assigned_user_id : Option Nat := none
  source : Option String := none
  price_net_ore : Option Int := none
  price_gross_ore : Option Int := none
  vat_percent : Option Int := none
  price_note : Option String := none
  price_is_custom : Option Bool := none
  final_price_ore : Option Int := none
  service_item_id : Option Nat := none
  chain_token : Option String := none
deriving DecidableEq, Repr

/-- models.BayClosure -/
structure BayClosure where
  id : Nat
  bay_id : Nat
  start_at : Instant
  end_at : Instant
deriving DecidableEq, Repr

/-- models.UserWorkingHours: recurring wall-clock working window per weekday
(0 = Monday .. 6 = Sunday); start_time/end_time are minutes of the local day;
valid_from/valid_to are local day numbers. -/
structure UserWorkingHours where
  id : Nat
  user_id : Nat
  weekday : Int
  start_time : Int
  end_time : Int
  valid_from : Option Int := none
  valid_to : Option Int := none
deriving DecidableEq, Repr

/-- models.UserTimeOff -/
structure UserTimeOff where
  id : Nat
  user_id : Nat
  start_at : Instant
  end_at : Instant
deriving DecidableEq, Repr

/-- models.User with its workshop membership (user_workshop_association). -/
structure User where
  id : Nat
  role : UserRole
  workshop_ids : List Nat := []
deriving DecidableEq, Repr

/-- models.Workshop; timezone is the resolved fixed UTC offset of the
workshop's IANA zone (none models a missing attribute). -/
structure Workshop where
  id : Nat
  timezone : Option Int := none
deriving DecidableEq, Repr

/-- models.WorkshopBay -/
structure WorkshopBay where
  id : Nat
  workshop_id : Nat
  name : String := ""
  supported_vehicle_classes : List Nat := []
  max_length_mm : Option Int := none
  max_width_mm : Option Int := none
  max_height_mm : Option Int := none
  max_weight_kg : Option Int := none
deriving DecidableEq, Repr

/-- models.WorkshopServiceItem (fields the availability planner reads). -/
structure WorkshopServiceItem where
  id : Nat
  workshop_id : Nat
  default_duration_min : Option Int := none
deriving DecidableEq, Repr

/-- models.Car -/
structure Car where
  id : Nat
  registration_number : String
deriving DecidableEq, Repr

/-- models.VehicleProfile -/
structure VehicleProfile where
  car_id : Nat
  vehicle_class : Nat
  length_mm : Option Int := none
  width_mm : Option Int := none
  height_mm : Option Int := none
  weight_kg : Option Int := none
deriving DecidableEq, Repr

/-- A read snapshot of the database plus the next primary key the store will
assign.  Table contents are in row order. -/
structure DB where
  workshops : List Workshop := []
  bays : List WorkshopBay := []
  bookings : List BayBooking := []
  closures : List BayClosure := []
  users : List User := []
  working_hours : List UserWorkingHours := []
  timeoffs : List UserTimeOff := []
  service_items : List WorkshopServiceItem := []
  cars : List Car := []
  vehicle_profiles : List VehicleProfile := []
  next_id : Nat := 1
deriving DecidableEq, Repr

/-! ### Time helpers -/

/-- Python truthiness of an optional integer: None and 0 are falsy. -/
def int_truthy : Option Int → Bool
  | none => false
  | some v => v != 0

/-- Local calendar day of a UTC instant for a fixed-offset zone
(dt.astimezone(tz).date()). -/
def local_date (t : Instant) (tz : Int) : Int := (t + tz).fdiv 1440

/-- date.weekday(): 0 = Monday .. 6 = Sunday; day 0 of the model is a Monday. -/
def date_weekday (d : Int) : Int := d.emod 7

/-- datetime.combine(the_date, wall_clock_minutes, tz) converted to UTC. -/
def combine_local (d : Int) (wall : Int) (tz : Int) : Instant := d * 1440 + wall - tz

/-- booking._round_up on a local wall-clock instant at minute resolution:
k = dt.minute % minutes; if k == 0 (seconds are always 0 here) keep dt,
else add minutes - k. -/
def round_up (dt : Int) (minutes : Int) : Int :=
  let k := (dt.emod 60).emod minutes
  if k = 0 then dt else dt + (minutes - k)

/-- booking._round_up_local -/
def round_up_local (dt_utc : Instant) (minutes : Int) (tz : Int) : Instant :=
  round_up (dt_utc + tz) minutes - tz

/-- booking._overlap: strict half-open interval overlap. -/
def overlap (a_start a_end b_start b_end : Instant) : Bool :=
  decide (a_start < b_end) && decide (b_start < a_end)

/-- booking._overlap_clause / baybooking._overlap_clause as a row predicate:
(col_start < q_end) AND (q_start < col_end). -/
def overlap_clause (col_start col_end q_start q_end : Instant) : Bool :=
  decide (col_start < q_end) && decide (q_start < col_end)

/-- Lexicographic order on pairs of integers: Python tuple sort order. -/
def pair_le (a b : Int × Int) : Bool :=
  decide (a.1 < b.1) || (decide (a.1 = b.1) && decide (a.2 ≤ b.2))

/-- The Prop form of the pair order. -/
def PairLe (a b : Int × Int) : Prop := pair_le a b = true

instance : DecidableRel PairLe := fun a b => instDecidableEqBool (pair_le a b) true

/-- Python sorted() on a list of 2-tuples of instants (a stable sort, so the
stable insertion sort computes the same list as Python's Timsort). -/
def sort_pairs (l : List (Int × Int)) : List (Int × Int) := l.insertionSort PairLe

/-! ### booking.py: working-hour windows and availability of a mechanic -/

/-- Merge loop inside booking._user_work_windows_for_date: the accumulator is
the last appended window; a following window starting before its end extends
it, otherwise a new window is started. -/
def merge_windows_aux (cur : Int × Int) : List (Int × Int) → List (Int × Int)
  | [] => [cur]
  | (s, e) :: rest =>
    if s ≥ cur.2 then cur :: merge_windows_aux (s, e) rest
    else merge_windows_aux (cur.1, max cur.2 e) rest

def merge_windows : List (Int × Int) → List (Int × Int)
  | [] => []
  | w :: rest => merge_windows_aux w rest

/-- booking._user_work_windows_for_date: UTC windows from the user's
working-hour rules matching the weekday and validity range of the local day,
sorted and merged. -/
def user_work_windows_for_date (db : DB) (user_id : Nat) (the_date : Int) (tz : Int) :
    List (Int × Int) :=
  let weekday := date_weekday the_date
  let rows := db.working_hours.filter fun r =>
    r.user_id == user_id && r.weekday == weekday
  let wins := (rows.filter fun r =>
      !(match r.valid_from with | some vf => decide (the_date < vf) | none => false) &&
      !(match r.valid_to with | some vt => decide (the_date > vt) | none => false)).map
    fun r => (combine_local the_date r.start_time tz, combine_local the_date r.end_time tz)
  merge_windows (sort_pairs wins)

/-- booking._user_timeoff_overlaps: Postgres closed-closed range overlap
tstzrange(least(s,e), greatest(s,e), both ends closed) with the time-off's
closed range: touching endpoints count as overlap. -/
def user_timeoff_overlaps (db : DB) (user_id : Nat) (start_at end_at : Instant) : Bool :=
  db.timeoffs.any fun t =>
    t.user_id == user_id &&
    decide (min start_at end_at ≤ t.end_at) && decide (t.start_at ≤ max start_at end_at)

/-- Windows for the local day(s) of an interval, as built in
booking._user_is_available and booking._cheap_wallclock_cover. -/
def user_windows_for_interval (db : DB) (user_id : Nat) (start_at end_at : Instant)
    (tz : Int) : List (Int × Int) :=
  let d1 := local_date start_at tz
  let d2 := local_date end_at tz
  user_work_windows_for_date db user_id d1 tz ++
    (if d2 != d1 then user_work_windows_for_date db user_id d2 tz else [])

/-- booking._user_is_available -/
def user_is_available (db : DB) (user : User) (start_at end_at : Instant) (tz : Int) :
    Bool :=
  if end_at ≤ start_at then false
  else
    -- 1) full coverage by one working window of the start/end local day
    -- (the source sorts wins by start; membership in the list is what matters)
    let wins := sort_pairs (user_windows_for_interval db user.id start_at end_at tz)
    if !(wins.any fun w => decide (w.1 ≤ start_at) && decide (end_at ≤ w.2)) then false
    else
    -- 2) no time off
    if user_timeoff_overlaps db user.id start_at end_at then false
    else
      -- 3) no assigned booking; only rows whose raw interval overlaps the
      -- proposal are fetched, then the buffer-expanded interval is tested
      let assigned := db.bookings.filter fun b =>
        b.assigned_user_id == some user.id &&
        !(decide (b.end_at ≤ start_at) || decide (b.start_at ≥ end_at))
      assigned.all fun b =>
        decide (b.end_at + b.buffer_after_min ≤ start_at) ||
        decide (b.start_at - b.buffer_before_min ≥ end_at)

/-- booking._mechanic_load_count -/
def mechanic_load_count (db : DB) (user_id : Nat) (window_start window_end : Instant) :
    Nat :=
  (db.bookings.filter fun b =>
    b.assigned_user_id == some user_id &&
    decide (b.start_at < window_end) && decide (b.end_at > window_start)).length

/-- booking._score_mechanic -/
def score_mechanic (db : DB) (user : User) (window_start window_end : Instant)
    (prefer_user_id : Option Nat) : Int × List String :=
  let load := mechanic_load_count db user.id window_start window_end
  let (score, reasons) : Int × List String :=
    if load ≤ 0 then (50 + 30, ["least_busy:0"])
    else if load = 1 then (50 + 20, ["least_busy:1"])
    else if load = 2 then (50 + 10, ["least_busy:2"])
    else (50, ["busy:" ++ toString load])
  let (score, reasons) :=
    match prefer_user_id with
    | some p => if p ≠ 0 && user.id == p then (score + 10, reasons ++ ["preference"]) else (score, reasons)
    | none => (score, reasons)
  (max 0 (min 100 score), reasons)

/-! ### booking.py: bay conflict check and free segments -/

/-- booking._bay_slot_is_free.  The query fetches only bookings of the bay
whose raw interval overlaps the proposed interval padded by 120 minutes on
each side; each fetched booking is then tested with its buffer-expanded
interval; finally any overlapping BayClosure makes the slot busy.  The
include_buffers argument is accepted but never used by the source. -/
def bay_slot_is_free (db : DB) (bay_id : Nat) (start_at end_at : Instant)
    (include_buffers : Bool) : Bool :=
  let bookings := db.bookings.filter fun b =>
    b.bay_id == bay_id &&
    overlap_clause b.start_at b.end_at (start_at - 120) (end_at + 120)
  if bookings.any fun b =>
      overlap start_at end_at (b.start_at - b.buffer_before_min)
        (b.end_at + b.buffer_after_min) then false
  else
    let closure := db.closures.find? fun c =>
      c.bay_id == bay_id && overlap_clause c.start_at c.end_at start_at end_at
    closure.isNone

/-- Sweep inside booking._bay_free_segments: walk the clipped blockers of one
base segment in sorted order, emitting the free pieces. -/
def free_sweep (pos seg_e : Instant) : List (Int × Int) → List (Int × Int)
  | [] => if pos < seg_e then [(pos, seg_e)] else []
  | (bs, be) :: rest =>
    let pre := if pos < bs then [(pos, bs)] else []
    pre ++ free_sweep (max pos be) seg_e rest

/-- booking._bay_free_segments: free sub-segments of each given segment after
removing the bay's bookings (buffer-expanded, clipped) and closures (clipped);
zero-length results are dropped. -/
def bay_free_segments (db : DB) (bay_id : Nat) (segments : List (Int × Int))
    (include_buffers : Bool) : List (Int × Int) :=
  let free := segments.flatMap fun (seg : Int × Int) =>
    let bookings := db.bookings.filter fun b =>
      b.bay_id == bay_id && decide (b.start_at < seg.2) && decide (b.end_at > seg.1)
    let blks1 := bookings.map fun b =>
      (max (b.start_at - b.buffer_before_min) seg.1,
       min (b.end_at + b.buffer_after_min) seg.2)
    let closures := db.closures.filter fun c =>
      c.bay_id == bay_id && decide (c.start_at < seg.2) && decide (c.end_at > seg.1)
    let blks := blks1 ++ closures.map fun c => (max c.start_at seg.1, min c.end_at seg.2)
    free_sweep seg.1 seg.2 (sort_pairs blks)
  free.filter fun s => decide (s.2 > s.1)

/-! ### booking.py: segment algebra -/

/-- Inner loop of booking._segment_subtract over one base segment [cur, e):
blocks are visited in sorted order; a block ending before cur or starting at
or after e is skipped; otherwise the free piece before it (if any) is emitted
and cur advances past it, stopping once cur reaches e. -/
def subtract_sweep (cur e : Instant) : List (Int × Int) → List (Int × Int)
  | [] => if cur < e then [(cur, e)] else []
  | (bs, be) :: rest =>
    if decide (be ≤ cur) || decide (bs ≥ e) then subtract_sweep cur e rest
    else
      let pre := if bs > cur then [(cur, bs)] else []
      let cur2 := max cur be
      if cur2 ≥ e then pre
      else pre ++ subtract_sweep cur2 e rest

/-- booking._segment_subtract -/
def segment_subtract (base : List (Int × Int)) (blocks : List (Int × Int)) :
    List (Int × Int) :=
  match base with
  | [] => []
  | _ =>
    let sorted_blocks := sort_pairs blocks
    let out := base.flatMap fun (seg : Int × Int) => subtract_sweep seg.1 seg.2 sorted_blocks
    out.filter fun s => decide (s.2 > s.1)

/-- Two-pointer loop of booking._intersect_segments; each round drops one
element from one of the two lists, so a fuel of |a| + |b| is exact. -/
def intersect_aux : Nat → List (Int × Int) → List (Int × Int) → List (Int × Int)
  | 0, _, _ => []
  | _ + 1, [], _ => []
  | _ + 1, _, [] => []
  | fuel + 1, a :: as0, b :: bs0 =>
    let s := max a.1 b.1
    let e := min a.2 b.2
    let head := if e > s then [(s, e)] else []
    if a.2 < b.2 then head ++ intersect_aux fuel as0 (b :: bs0)
    else head ++ intersect_aux fuel (a :: as0) bs0

/-- booking._intersect_segments: two-pointer sorted-merge intersection. -/
def intersect_segments (a b : List (Int × Int)) : List (Int × Int) :=
  intersect_aux (a.length + b.length) a b

/-! ### booking.py: per-user free segments and the cheap prefilter -/

/-- The local days touched by [d1, d2] (the `while day <= d2` loop). -/
def days_between (d1 d2 : Int) : List Int :=
  (List.range (d2 - d1 + 1).toNat).map fun k => d1 + k

/-- booking._user_free_segments: working windows of every touched local day,
clipped to the query range and sorted, minus time-off (clipped) and assigned
bookings (buffer-expanded, clipped, only kept when non-empty; fetched with a
2-hour padding on the raw interval). -/
def user_free_segments (db : DB) (user : User) (seg_start seg_end : Instant) (tz : Int) :
    List (Int × Int) :=
  let d1 := local_date seg_start tz
  let d2 := local_date seg_end tz
  let work_wins0 := (days_between d1 d2).flatMap fun day =>
    user_work_windows_for_date db user.id day tz
  let work_wins := (work_wins0.map fun w => (max seg_start w.1, min seg_end w.2)).filter
    fun w => decide (w.2 > w.1)
  let work_wins := sort_pairs work_wins
  if work_wins.isEmpty then []
  else
    let tos := db.timeoffs.filter fun t =>
      t.user_id == user.id && overlap_clause t.start_at t.end_at seg_start seg_end
    let blocks1 := tos.map fun t => (max seg_start t.start_at, min seg_end t.end_at)
    let assigned := db.bookings.filter fun b =>
      b.assigned_user_id == some user.id &&
      overlap_clause b.start_at b.end_at (seg_start - 120) (seg_end + 120)
    let blocks2 := (assigned.map fun b =>
        (max (b.start_at - b.buffer_before_min) seg_start,
         min (b.end_at + b.buffer_after_min) seg_end)).filter
      fun w => decide (w.2 > w.1)
    segment_subtract work_wins (sort_pairs (blocks1 ++ blocks2))

/-- booking._cheap_wallclock_cover: at least one user has a working window of
the start/end local day that wall-clock-covers the whole interval. -/
def cheap_wallclock_cover (users : List User) (start_at end_at : Instant) (tz : Int)
    (db : DB) : Bool :=
  if end_at ≤ start_at then false
  else users.any fun u =>
    (user_windows_for_interval db u.id start_at end_at tz).any fun w =>
      decide (w.1 ≤ start_at) && decide (end_at ≤ w.2)

/-- booking._next_any_bay_cover_start as a fuel-bounded scan.  The source
loops `while t + dur <= latest_end`, advancing t by at least step_min minutes
per round, so a fuel of (latest_end - t).toNat + 1 makes the recursion agree
with the unbounded loop whenever step_min >= 1 and duration_min >= 1. -/
def next_any_bay_cover_start (db : DB) (bays : List WorkshopBay) (users : List User)
    (duration_min : Int) (tz : Int) (step_min : Int) (latest_end : Instant)
    (include_buffers : Bool) : Nat → Instant → Option Instant
  | 0, _ => none
  | fuel + 1, t =>
    if t + duration_min ≤ latest_end then
      let cand_end := t + duration_min
      if cheap_wallclock_cover users t cand_end tz db &&
          bays.any (fun bay => bay_slot_is_free db bay.id t cand_end include_buffers) then
        some t
      else
        next_any_bay_cover_start db bays users duration_min tz step_min latest_end
          include_buffers fuel (round_up_local (t + step_min) step_min tz)
    else none

/-! ### booking.py: assignment strategies -/

/-- booking._least_busy_order: stable sort ascending by (overlapping-booking
count, user id); the source's inline count query is the same query as
booking._mechanic_load_count. -/
def least_busy_order (db : DB) (users : List User) (window_start window_end : Instant) :
    List User :=
  users.insertionSort fun x y =>
    let cx := mechanic_load_count db x.id window_start window_end
    let cy := mechanic_load_count db y.id window_start window_end
    cx < cy ∨ (cx = cy ∧ x.id ≤ y.id)

/-- booking._order_users_for_slot.  random.Random(seed).shuffle is Python
standard-library code, external to the repository: it is passed in as the
deterministic seeded permutation `shuffle`. -/
def order_users_for_slot (shuffle : Nat → List User → List User) (db : DB)
    (users : List User) (strategy : AssignmentStrategy) (slot_seed : Nat)
    (window_start window_end : Instant) : List User :=
  match strategy with
  | .random => shuffle slot_seed users
  | .round_robin =>
    if users.length > 0 then
      let idx := slot_seed % users.length
      users.drop idx ++ users.take idx
    else users
  | .least_busy => least_busy_order db users window_start window_end

/-! ### baybooking.py: validation and the booking transaction core -/

/-- HTTP-style failure; the source attaches a human-readable detail payload
(message and best-effort alternatives) which carries no state and is elided. -/
structure HErr where
  code : Nat
deriving DecidableEq, Repr

/-- Python truthiness of an optional id (None and 0 are falsy). -/
def nat_truthy : Option Nat → Bool
  | none => false
  | some n => n != 0

/-- Python truthiness of an optional string (None and the empty string are
falsy). -/
def str_truthy : Option String → Bool
  | none => false
  | some s => s != ""

/-- baybooking._ensure_workshop_and_bay -/
def ensure_workshop_and_bay (db : DB) (workshop_id bay_id : Nat) :
    Except HErr WorkshopBay :=
  match db.workshops.find? fun w => w.id == workshop_id with
  | none => .error ⟨404⟩
  | some _ =>
    match db.bays.find? fun b => b.id == bay_id with
    | none => .error ⟨404⟩
    | some bay =>
      if bay.workshop_id != workshop_id then .error ⟨400⟩ else .ok bay

/-- Shared body of the two _validate_vehicle_vs_bay variants, given the id of
a car that is present and truthy: look up its profile; without a profile the
check passes, otherwise class membership and each dimension limit are tested
(a missing or zero limit or measurement is falsy and skips its test). -/
def vehicle_profile_checks (db : DB) (bay : WorkshopBay) (car_id : Nat) :
    Except HErr Unit :=
  match db.vehicle_profiles.find? fun p => p.car_id == car_id with
  | none => .ok ()
  | some profile =>
    if !bay.supported_vehicle_classes.isEmpty &&
        !bay.supported_vehicle_classes.contains profile.vehicle_class then .error ⟨400⟩
    else if int_truthy bay.max_length_mm && int_truthy profile.length_mm &&
        decide (profile.length_mm.getD 0 > bay.max_length_mm.getD 0) then .error ⟨400⟩
    else if int_truthy bay.max_width_mm && int_truthy profile.width_mm &&
        decide (profile.width_mm.getD 0 > bay.max_width_mm.getD 0) then .error ⟨400⟩
    else if int_truthy bay.max_height_mm && int_truthy profile.height_mm &&
        decide (profile.height_mm.getD 0 > bay.max_height_mm.getD 0) then .error ⟨400⟩
    else if int_truthy bay.max_weight_kg && int_truthy profile.weight_kg &&
        decide (profile.weight_kg.getD 0 > bay.max_weight_kg.getD 0) then .error ⟨400⟩
    else .ok ()

/-- baybooking._validate_vehicle_vs_bay (takes an optional car id; 0 is
falsy and skips validation). -/
def validate_vehicle_vs_bay (db : DB) (bay : WorkshopBay) (car_id : Option Nat) :
    Except HErr Unit :=
  if !nat_truthy car_id then .ok ()
  else vehicle_profile_checks db bay (car_id.getD 0)

/-- booking._validate_vehicle_vs_bay (takes an optional car object). -/
def validate_vehicle_vs_bay_car (db : DB) (bay : WorkshopBay) (car : Option Car) :
    Except HErr Unit :=
  match car with
  | none => .ok ()
  | some c => vehicle_profile_checks db bay c.id

/-- baybooking._assert_no_conflicts: 400 on a malformed interval, 409 when the
buffer-expanded new interval overlaps the buffer-expanded interval of any
other booking of the bay (regardless of status), 409 when a BayClosure of the
bay overlaps the buffer-expanded new interval. -/
def assert_no_conflicts (db : DB) (booking_id : Option Nat) (bay_id : Nat)
    (start_at end_at : Instant) (buffer_before_min buffer_after_min : Int) :
    Except HErr Unit :=
  if end_at ≤ start_at then .error ⟨400⟩
  else
    let new_eff_start := start_at - buffer_before_min
    let new_eff_end := end_at + buffer_after_min
    let others := db.bookings.filter fun b =>
      b.bay_id == bay_id &&
      (match booking_id with | some bid => b.id != bid | none => true)
    if others.any fun b =>
        overlap new_eff_start new_eff_end (b.start_at - b.buffer_before_min)
          (b.end_at + b.buffer_after_min) then .error ⟨409⟩
    else if db.closures.any fun c =>
        c.bay_id == bay_id &&
        overlap_clause c.start_at c.end_at new_eff_start new_eff_end then .error ⟨409⟩
    else .ok ()

/-- schemas.BayBookingCreate -/
structure BayBookingCreate where
  workshop_id : Nat
  bay_id : Nat
  title : String
  description : Option String := none
  start_at : Instant
  end_at : Instant
  buffer_before_min : Int := 0
  buffer_after_min : Int := 0
  status : Option BookingStatus := none
  customer_id : Option Nat := none
  car_id : Option Nat := none
  service_log_id : Option Nat := none
  assigned_user_id : Option Nat := none
  source : Option String := none
  price_net_ore : Option Int := none
  price_gross_ore : Option Int := none
  vat_percent : Option Int := none
  price_note : Option String := none
  price_is_custom : Option Bool := none
  final_price_ore : Option Int := none
  service_item_id : Option Nat := none
  chain_token : Option String := none
deriving DecidableEq, Repr

/-- The models.BayBooking row built inside baybooking._create_booking_core,
with the store-assigned primary key. -/
def booking_from_payload (p : BayBookingCreate) (id : Nat) : BayBooking :=
  { id := id
    workshop_id := p.workshop_id
    bay_id := p.bay_id
    title := p.title
    description := p.description
    start_at := p.start_at
    end_at := p.end_at
    buffer_before_min := p.buffer_before_min
    buffer_after_min := p.buffer_after_min
    status := p.status.getD .booked
    customer_id := p.customer_id
    car_id := p.car_id
    service_log_id := p.service_log_id
    assigned_user_id := p.assigned_user_id
    source := p.source
    service_item_id := p.service_item_id
    price_net_ore := p.price_net_ore
    price_gross_ore := p.price_gross_ore
    vat_percent := p.vat_percent
    price_note := p.price_note
    price_is_custom := p.price_is_custom
    final_price_ore := p.final_price_ore
    chain_token := p.chain_token }

/-- baybooking._create_booking_core: validations and the conflict check run
first; only when all pass is the new row added and committed.  The returned
state is the database after the call. -/
def create_booking_core (db : DB) (p : BayBookingCreate) :
    DB × Except HErr BayBooking :=
  match ensure_workshop_and_bay db p.workshop_id p.bay_id with
  | .error e => (db, .error e)
  | .ok bay =>
    match validate_vehicle_vs_bay db bay p.car_id with
    | .error e => (db, .error e)
    | .ok _ =>
      match assert_no_conflicts db none p.bay_id p.start_at p.end_at
          p.buffer_before_min p.buffer_after_min with
      | .error e => (db, .error e)
      | .ok _ =>
        let booking := booking_from_payload p db.next_id
        ({ db with bookings := db.bookings ++ [booking], next_id := db.next_id + 1 },
          .ok booking)

/-! ### booking.py: the auto-schedule endpoint -/

/-- booking.AutoScheduleRequest; a `none` field models a field the request did
not supply (Pydantic defaults are None for every field this development
reasons about). -/
structure AutoScheduleRequest where
  workshop_id : Nat
  bay_id : Nat
  title : String
  start_at : Instant
  end_at : Instant
  assigned_user_id : Option Nat := none
  customer_id : Option Nat := none
  car_id : Option Nat := none
  registration_number : Option String := none
  service_log_id : Option Nat := none
  description : Option String := none
  buffer_before_min : Int := 0
  buffer_after_min : Int := 0
  source : Option String := some "auto"
  service_item_id : Option Nat := none
  price_net_ore : Option Int := none
  price_gross_ore : Option Int := none
  vat_percent : Option Int := none
  price_note : Option String := none
  price_is_custom : Option Bool := none
  chain_token : Option String := none
deriving DecidableEq, Repr

/-- booking.STHLM_TZ / the "Europe/Stockholm" fallback zone, as its
standard-time UTC offset in minutes. -/
def STHLM_OFFSET : Int := 60

/-- booking._tz_for_workshop: the workshop's zone resolved to a fixed offset,
falling back to Europe/Stockholm when the attribute is missing (the
ZoneInfoNotFoundError → UTC fallback concerns unresolvable zone names, which
the offset model has already resolved away). -/
def tz_for_workshop (ws : Workshop) : Int := ws.timezone.getD STHLM_OFFSET

/-- booking.ALLOWED_EMPLOYEE_ROLES -/
def ALLOWED_EMPLOYEE_ROLES : List UserRole := [.workshop_user, .workshop_employee]

/-- booking._employees_in_workshop -/
def employees_in_workshop (db : DB) (workshop_id : Nat) : List User :=
  db.users.filter fun u =>
    u.workshop_ids.contains workshop_id && ALLOWED_EMPLOYEE_ROLES.contains u.role

/-- booking._get_car_by_reg -/
def get_car_by_reg (db : DB) (reg : String) : Option Car :=
  let reg := reg.trim.toUpper
  if reg = "" then none
  else db.cars.find? fun c => c.registration_number == reg

/-- booking._ensure_workshop -/
def ensure_workshop (db : DB) (workshop_id : Nat) : Except HErr Workshop :=
  match db.workshops.find? fun w => w.id == workshop_id with
  | none => .error ⟨404⟩
  | some ws => .ok ws

/-- booking._ensure_bay_in_workshop -/
def ensure_bay_in_workshop (db : DB) (workshop_id bay_id : Nat) :
    Except HErr WorkshopBay :=
  match db.bays.find? fun b => b.id == bay_id with
  | none => .error ⟨404⟩
  | some bay =>
    if bay.workshop_id != workshop_id then .error ⟨400⟩ else .ok bay

/-- The chain master: the earliest (lowest-id) booking carrying the token
(query ordered by id ascending, first row). -/
def chain_master_for (db : DB) (token : String) : Option BayBooking :=
  ((db.bookings.filter fun b => b.chain_token == some token).insertionSort
    fun a b => a.id ≤ b.id).head?

/-- The BayBookingCreate dictionary assembled by booking.auto_schedule:
payload fields, start/end normalised, car id resolved, status forced to
BOOKED, source defaulted, registration_number dropped; when a chain token is
truthy and a master exists the five price fields are removed and the master's
car / service item are propagated into falsy (unset or 0) fields. -/
def build_auto_payload (payload : AutoScheduleRequest) (car : Option Car)
    (chain_master : Option BayBooking) (start_at end_at : Instant) :
    BayBookingCreate :=
  let chain_active := str_truthy payload.chain_token
  let car_id0 : Option Nat := match car with | some c => some c.id | none => payload.car_id
  let strip := chain_active && chain_master.isSome
  let car_id :=
    match chain_master with
    | some m =>
      if strip && nat_truthy m.car_id && !nat_truthy car_id0 then m.car_id else car_id0
    | none => car_id0
  let service_item_id :=
    match chain_master with
    | some m =>
      if strip && nat_truthy m.service_item_id && !nat_truthy payload.service_item_id then
        m.service_item_id
      else payload.service_item_id
    | none => payload.service_item_id
  { workshop_id := payload.workshop_id
    bay_id := payload.bay_id
    title := payload.title
    description := payload.description
    start_at := start_at
    end_at := end_at
    buffer_before_min := payload.buffer_before_min
    buffer_after_min := payload.buffer_after_min
    status := some .booked
    customer_id := payload.customer_id
    car_id := car_id
    service_log_id := payload.service_log_id
    assigned_user_id := payload.assigned_user_id
    source := some (match payload.source with
      | some s => if s = "" then "auto" else s
      | none => "auto")
    price_net_ore := if strip then none else payload.price_net_ore
    price_gross_ore := if strip then none else payload.price_gross_ore
    vat_percent := payload.vat_percent
    price_note := if strip then none else payload.price_note
    price_is_custom := if strip then none else payload.price_is_custom
    final_price_ore := none
    service_item_id := service_item_id
    chain_token := payload.chain_token }

/-- The car lookup of booking.auto_schedule: via car_id (404 when missing) or
else via the registration number (no error when unmatched). -/
def resolve_car (db : DB) (payload : AutoScheduleRequest) : Except HErr (Option Car) :=
  if nat_truthy payload.car_id then
    match db.cars.find? fun c => c.id == payload.car_id.getD 0 with
    | none => .error ⟨404⟩
    | some c => .ok (some c)
  else if str_truthy payload.registration_number then
    .ok (get_car_by_reg db (payload.registration_number.getD ""))
  else .ok none

/-- The assigned-mechanic re-validation of booking.auto_schedule. -/
def assigned_user_check (db : DB) (payload : AutoScheduleRequest)
    (start_at end_at : Instant) (tz : Int) : Except HErr Unit :=
  if nat_truthy payload.assigned_user_id then
    match db.users.find? fun u => u.id == payload.assigned_user_id.getD 0 with
    | none => .error ⟨404⟩
    | some user =>
      if !ALLOWED_EMPLOYEE_ROLES.contains user.role then .error ⟨400⟩
      else if !user_is_available db user start_at end_at tz then .error ⟨409⟩
      else .ok ()
  else .ok ()

/-- The chain-consistency checks of booking.auto_schedule against an existing
master: same workshop; when the master carries a (truthy) car and a car was
resolved they must agree; when both carry truthy service items they must
agree. -/
def chain_checks (payload : AutoScheduleRequest) (car : Option Car) :
    Option BayBooking → Except HErr Unit
  | none => .ok ()
  | some m =>
    if m.workshop_id != payload.workshop_id then .error ⟨400⟩
    else if nat_truthy m.car_id &&
        (match car with
         | some c => m.car_id != some c.id
         | none => false) then .error ⟨400⟩
    else if nat_truthy m.service_item_id &&
        nat_truthy payload.service_item_id &&
        m.service_item_id != payload.service_item_id then .error ⟨400⟩
    else .ok ()

/-- booking.auto_schedule: the full request path.  Every rejection leaves the
database untouched; only a successful create_booking_core commits.  The
best-effort alternative suggestions attached to 409 responses are another
read-only computation inside the error detail and are elided with it. -/
def auto_schedule (db : DB) (payload : AutoScheduleRequest) :
    DB × Except HErr BayBooking :=
  match ensure_workshop db payload.workshop_id with
  | .error e => (db, .error e)
  | .ok ws =>
    let tz := tz_for_workshop ws
    match ensure_bay_in_workshop db payload.workshop_id payload.bay_id with
    | .error e => (db, .error e)
    | .ok bay =>
      let start_at := payload.start_at
      let end_at := payload.end_at
      if end_at ≤ start_at then (db, .error ⟨400⟩)
      else
        match resolve_car db payload with
        | .error e => (db, .error e)
        | .ok car =>
          match validate_vehicle_vs_bay_car db bay car with
          | .error e => (db, .error e)
          | .ok _ =>
            if !bay_slot_is_free db bay.id start_at end_at true then (db, .error ⟨409⟩)
            else
              match assigned_user_check db payload start_at end_at tz with
              | .error e => (db, .error e)
              | .ok _ =>
                if (match payload.vat_percent with
                    | some v => decide (v < 0) || decide (v > 100)
                    | none => false) then (db, .error ⟨400⟩)
                else if (match payload.price_net_ore with
                    | some v => decide (v < 0) | none => false) then (db, .error ⟨400⟩)
                else if (match payload.price_gross_ore with
                    | some v => decide (v < 0) | none => false) then (db, .error ⟨400⟩)
                else
                  let chain_master :=
                    if str_truthy payload.chain_token then
                      chain_master_for db (payload.chain_token.getD "")
                    else none
                  match chain_checks payload car chain_master with
                  | .error e => (db, .error e)
                  | .ok _ =>
                    create_booking_core db
                      (build_auto_payload payload car chain_master start_at end_at)

/-! ### booking.py: the availability planner -/

/-- booking.MIN_FRAGMENT_MINUTES -/
def MIN_FRAGMENT_MINUTES : Int := 30

/-- booking.MAX_FRAGMENT_PARTS -/
def MAX_FRAGMENT_PARTS : Nat := 3

/-- booking.MAX_FRAGMENT_DAYS -/
def MAX_FRAGMENT_DAYS : Int := 3

/-- booking.AvailabilityRequest -/
structure AvailabilityRequest where
  workshop_id : Nat
  registration_number : String := ""
  service_item_id : Nat
  earliest_from : Option Instant := none
  latest_end : Option Instant := none
  prefer_user_id : Option Nat := none
  num_proposals : Int := 3
  interval_granularity_min : Int := 15
  include_buffers : Bool := true
  override_duration_min : Option Int := none
  assignment_strategy : Option AssignmentStrategy := some .random
  return_candidates : Bool := true
  max_candidates_per_slot : Int := 5
  min_lead_time_min : Int := 30
  allow_fragmented_parts : Bool := false

/-- booking.AvailabilityPart -/
structure AvailabilityPart where
  start_at : Instant
  end_at : Instant
deriving DecidableEq, Repr

/-- booking.MechanicCandidate -/
structure MechanicCandidate where
  user_id : Nat
  score : Int
  rank : Nat
  reasons : List String := []
deriving DecidableEq, Repr

/-- booking.SlotDiagnostics -/
structure SlotDiagnostics where
  disqualified : Option (List MechanicCandidate) := none
deriving DecidableEq, Repr

/-- booking.SlotMeta -/
structure SlotMeta where
  recommended_user_id : Option Nat := none
  candidates : Option (List MechanicCandidate) := none
  diagnostics : Option SlotDiagnostics := none
deriving DecidableEq, Repr

/-- booking.AvailabilityProposal.  start_at/end_at are serialized in the
workshop's zone; as instants they are unchanged by astimezone, so the model
keeps the UTC instant. -/
structure AvailabilityProposal where
  bay_id : Nat
  start_at : Instant
  end_at : Instant
  assigned_user_id : Option Nat := none
  notes : Option String := none
  parts : Option (List AvailabilityPart) := none
  meta : Option SlotMeta := none
deriving DecidableEq, Repr

/-- booking.AvailabilityResponse -/
structure AvailabilityResponse where
  proposals : List AvailabilityProposal
  reason_if_empty : Option String := none
deriving DecidableEq, Repr

/-- booking._candidate_bays_for_vehicle: all bays of the workshop (the car
argument is accepted but unused by the source). -/
def candidate_bays_for_vehicle (db : DB) (workshop_id : Nat) : List WorkshopBay :=
  db.bays.filter fun b => b.workshop_id == workshop_id

/-- booking._duration_for_service_item: int(si.default_duration_min or 60);
a missing or zero duration falls back to 60. -/
def duration_for_service_item (si : WorkshopServiceItem) : Int :=
  match si.default_duration_min with
  | some d => if d = 0 then 60 else d
  | none => 60

/-- availability_auto._dedupe_key: (bay, user or 0, epoch seconds of start,
epoch seconds of end); instants are whole minutes so seconds = minutes * 60. -/
def dedupe_key (bay_id : Nat) (user_id : Option Nat) (s e : Instant) :
    Nat × Nat × Int × Int :=
  (bay_id, user_id.getD 0, s * 60, e * 60)

/-- slot_seed = int(current.timestamp()) XOR workshop_id (epoch seconds XOR
workshop id, as a non-negative machine integer). -/
def slot_seed_of (current : Instant) (workshop_id : Nat) : Nat :=
  (current * 60).toNat ^^^ workshop_id

/-- The duplicated per-candidate clash test of availability_auto (identical
to step 3 of booking._user_is_available): some fetched raw-overlapping
assigned booking also overlaps with buffers. -/
def user_booking_clash (db : DB) (user_id : Nat) (start_at end_at : Instant) : Bool :=
  let assigned := db.bookings.filter fun b =>
    b.assigned_user_id == some user_id &&
    !(decide (b.end_at ≤ start_at) || decide (b.start_at ≥ end_at))
  assigned.any fun b =>
    !(decide (b.end_at + b.buffer_after_min ≤ start_at) ||
      decide (b.start_at - b.buffer_before_min ≥ end_at))

/-- A working window of the start/end local day wall-clock-covers the
interval (the coverer test of availability_auto). -/
def wallclock_covers (db : DB) (user_id : Nat) (start_at end_at : Instant)
    (tz : Int) : Bool :=
  (user_windows_for_interval db user_id start_at end_at tz).any fun w =>
    decide (w.1 ≤ start_at) && decide (end_at ≤ w.2)

/-- The per-user eligibility/diagnostic loop of the contiguous branch:
outside_working_hours, time_off and busy_with_buffer disqualify with a tag;
otherwise _user_is_available decides between scoring and not_available. -/
def classify_users (db : DB) (tz : Int) (current cand_end : Instant)
    (prefer_user_id : Option Nat) :
    List User → List (User × Int × List String) × List MechanicCandidate
  | [] => ([], [])
  | u :: rest =>
    let tail := classify_users db tz current cand_end prefer_user_id rest
    if !wallclock_covers db u.id current cand_end tz then
      (tail.1, ⟨u.id, 0, 0, ["outside_working_hours"]⟩ :: tail.2)
    else if user_timeoff_overlaps db u.id current cand_end then
      (tail.1, ⟨u.id, 0, 0, ["time_off"]⟩ :: tail.2)
    else if user_booking_clash db u.id current cand_end then
      (tail.1, ⟨u.id, 0, 0, ["busy_with_buffer"]⟩ :: tail.2)
    else if user_is_available db u current cand_end tz then
      let sc := score_mechanic db u current cand_end prefer_user_id
      ((u, sc.1, sc.2) :: tail.1, tail.2)
    else
      (tail.1, ⟨u.id, 0, 0, ["not_available"]⟩ :: tail.2)

/-- Python `getattr(bay, "name", "") or "Bay"`. -/
def bay_label (bay : WorkshopBay) : String := if bay.name = "" then "Bay" else bay.name

/-- The contiguous proposal row appended for one eligible mechanic. -/
def contiguous_proposal (bay : WorkshopBay) (current cand_end : Instant) (u : User)
    (disq : List MechanicCandidate) : AvailabilityProposal :=
  { bay_id := bay.id
    start_at := current
    end_at := cand_end
    assigned_user_id := some u.id
    notes := some (bay_label bay)
    parts := none
    meta := some
      { recommended_user_id := some u.id
        candidates := none
        diagnostics := some ⟨if disq.isEmpty then none else some disq⟩ } }

/-- The emit loop of the contiguous branch: one proposal per eligible
mechanic (already shuffled and truncated), skipping already-seen dedupe keys
and stopping once num_proposals is reached. -/
def emit_contiguous (num_proposals : Int) (bay : WorkshopBay)
    (current cand_end : Instant) (disq : List MechanicCandidate) :
    List (User × Int × List String) →
    List AvailabilityProposal → List (Nat × Nat × Int × Int) →
    List AvailabilityProposal × List (Nat × Nat × Int × Int)
  | [], proposals, seen => (proposals, seen)
  | (u, _, _) :: rest, proposals, seen =>
    let key := dedupe_key bay.id (some u.id) current cand_end
    if seen.contains key then emit_contiguous num_proposals bay current cand_end disq rest proposals seen
    else
      let proposals2 := proposals ++ [contiguous_proposal bay current cand_end u disq]
      let seen2 := seen ++ [key]
      if (proposals2.length : Int) ≥ num_proposals then (proposals2, seen2)
      else emit_contiguous num_proposals bay current cand_end disq rest proposals2 seen2

/-- The greedy fragment accumulator: walk candidate segments in order, taking
min(remaining, segment length) when that is at least MIN_FRAGMENT_MINUTES,
until the duration is covered or MAX_FRAGMENT_PARTS parts are used. -/
def greedy_parts : Int → List (Int × Int) → List (Int × Int) → Int × List (Int × Int)
  | remaining, parts, [] => (remaining, parts)
  | remaining, parts, (s, e) :: rest =>
    if decide (remaining ≤ 0) || decide (parts.length ≥ MAX_FRAGMENT_PARTS) then
      (remaining, parts)
    else
      let take := min remaining (e - s)
      if take ≥ MIN_FRAGMENT_MINUTES then
        greedy_parts (remaining - take) (parts ++ [(s, s + take)]) rest
      else greedy_parts remaining parts rest

/-- Python dict.setdefault(k, []).append(v) on an insertion-ordered dict. -/
def dict_append (d : List (Nat × List String)) (k : Nat) (v : String) :
    List (Nat × List String) :=
  if d.any fun kv => kv.1 == k then
    d.map fun kv => if kv.1 == k then (kv.1, kv.2 ++ [v]) else kv
  else d ++ [(k, [v])]

/-- The per-user loop of the fragmented branch: free segments intersected
with the bay's free segments, short segments dropped, then the greedy
accumulator; users that cover the duration are collected in order, the rest
are tagged in the disqualification dict. -/
def frag_user_results (db : DB) (tz : Int) (current end_limit : Instant)
    (duration_min : Int) (bay_free : List (Int × Int)) :
    List User →
    List (User × List (Int × Int)) × List (Nat × List String)
  | [] => ([], [])
  | u :: rest =>
    let tail := frag_user_results db tz current end_limit duration_min bay_free rest
    let user_free := user_free_segments db u current end_limit tz
    if user_free.isEmpty then
      (tail.1, dict_append tail.2 u.id "not_available")
    else
      let cand_segs := (intersect_segments bay_free user_free).filter fun w =>
        decide (w.2 - w.1 ≥ MIN_FRAGMENT_MINUTES)
      if cand_segs.isEmpty then
        (tail.1, dict_append tail.2 u.id "too_short_part")
      else
        let res := greedy_parts duration_min [] cand_segs
        if decide (res.1 ≤ 0) && decide (1 ≤ res.2.length) &&
            decide (res.2.length ≤ MAX_FRAGMENT_PARTS) then
          ((u, res.2) :: tail.1, tail.2)
        else
          (tail.1, dict_append tail.2 u.id "insufficient_cover")

/-- Two-digit zero-padded decimal. -/
def two_digits (n : Nat) : String :=
  if n < 10 then "0" ++ toString n else toString n

/-- strftime("%H:%M") of an instant rendered in the workshop zone. -/
def strftime_hm (t : Instant) (tz : Int) : String :=
  let lm := (t + tz).emod 1440
  two_digits (lm / 60).toNat ++ ":" ++ two_digits (lm.emod 60).toNat

/-- The gap strings between consecutive fragment parts. -/
def gap_strings (tz : Int) : List AvailabilityPart → List String
  | p1 :: p2 :: rest =>
    (strftime_hm p1.end_at tz ++ "–" ++ strftime_hm p2.start_at tz) ::
      gap_strings tz (p2 :: rest)
  | _ => []

/-- Python sorted(set(l)) over strings. -/
def sorted_unique_strings (l : List String) : List String :=
  l.eraseDups.insertionSort fun a b => ¬ b < a

/-- min over p[0][0] of the covering results (the list is non-empty whenever
the source evaluates this). -/
def frag_first_start (rs : List (User × List (Int × Int))) : Instant :=
  match rs.map fun r => (r.2.headD (0, 0)).1 with
  | [] => 0
  | x :: xs => xs.foldl min x

/-- max over p[-1][1] of the covering results. -/
def frag_last_end (rs : List (User × List (Int × Int))) : Instant :=
  match rs.map fun r => (r.2.getLastD (0, 0)).2 with
  | [] => 0
  | x :: xs => xs.foldl max x

/-- Scored mechanics of the fragmented branch, sorted by (-score, id). -/
def frag_window_users (db : DB) (rs : List (User × List (Int × Int)))
    (first_start last_end : Instant) (prefer_user_id : Option Nat) :
    List (User × Int × List String) :=
  (rs.map fun r =>
    let sc := score_mechanic db r.1 first_start last_end prefer_user_id
    (r.1, sc.1, sc.2)).insertionSort fun a b =>
      a.2.1 > b.2.1 ∨ (a.2.1 = b.2.1 ∧ a.1.id ≤ b.1.id)

/-- The fragmented proposal row of availability_auto (notes carry the bay
label and, for multi-part slots, the local-wall-clock gap list). -/
def fragmented_proposal (db : DB) (tz : Int) (bay : WorkshopBay)
    (return_candidates : Bool) (max_candidates_per_slot : Int)
    (prefer_user_id : Option Nat)
    (covering_results : List (User × List (Int × Int)))
    (disq_frag : List (Nat × List String)) : AvailabilityProposal :=
  let first_start := frag_first_start covering_results
  let last_end := frag_last_end covering_results
  let window_users := frag_window_users db covering_results first_start last_end prefer_user_id
  let recommended := (window_users.headD (⟨0, .owner, []⟩, 0, [])).1.id
  let candidates := (window_users.take (max 1 max_candidates_per_slot).toNat).enum.map
    fun p => MechanicCandidate.mk p.2.1.id p.2.2.1 (p.1 + 1) p.2.2.2
  let parts_payload := ((covering_results.headD (⟨0, .owner, []⟩, [])).2).map
    fun w => AvailabilityPart.mk w.1 w.2
  let gaps := gap_strings tz parts_payload
  let pause_note :=
    if parts_payload.length > 1 && !gaps.isEmpty then
      " (paus: " ++ String.intercalate ", " gaps ++ ")"
    else ""
  let disq_list := disq_frag.map fun kv =>
    MechanicCandidate.mk kv.1 0 0 (sorted_unique_strings kv.2)
  { bay_id := bay.id
    start_at := first_start
    end_at := last_end
    assigned_user_id := none
    notes := some (bay_label bay ++ pause_note)
    parts := some parts_payload
    meta := some
      { recommended_user_id := some recommended
        candidates := if return_candidates then some candidates else none
        diagnostics := some ⟨if disq_list.isEmpty then none else some disq_list⟩ } }

/-- The per-bay body of the scan loop: first the contiguous attempt, then —
when nothing was added and fragmentation is allowed — the fragmented attempt.
Returns the updated proposals, seen keys and the slot_added/break flag. -/
def process_bay (shuffle_users : Nat → List User → List User)
    (shuffle_eligible : Nat → List (User × Int × List String) → List (User × Int × List String))
    (db : DB) (payload : AvailabilityRequest) (tz : Int) (strategy : AssignmentStrategy)
    (employees coverers : List User) (current cand_end : Instant) (seed : Nat)
    (latest_end : Instant) (duration_min : Int) (bay : WorkshopBay)
    (proposals : List AvailabilityProposal) (seen : List (Nat × Nat × Int × Int)) :
    List AvailabilityProposal × List (Nat × Nat × Int × Int) × Bool :=
  let step1 :=
    if bay_slot_is_free db bay.id current cand_end payload.include_buffers then
      let users_in_order :=
        order_users_for_slot shuffle_users db coverers strategy (seed ^^^ bay.id)
          current cand_end
      let cls := classify_users db tz current cand_end payload.prefer_user_id users_in_order
      if !cls.1.isEmpty then
        let eligible := shuffle_eligible (seed ^^^ bay.id ^^^ 0xA17C) cls.1
        let max_per_time := (max 1 payload.max_candidates_per_slot).toNat
        let out := emit_contiguous payload.num_proposals bay current cand_end cls.2
          (eligible.take max_per_time) proposals seen
        (out.1, out.2, decide (out.1.length > 0))
      else (proposals, seen, false)
    else (proposals, seen, false)
  if step1.2.2 then step1
  else if !payload.allow_fragmented_parts then (step1.1, step1.2.1, false)
  else
    let proposals := step1.1
    let seen := step1.2.1
    let end_limit := min latest_end (current + MAX_FRAGMENT_DAYS * 1440)
    let bay_free := bay_free_segments db bay.id [(current, end_limit)] payload.include_buffers
    if bay_free.isEmpty then (proposals, seen, false)
    else
      let users_in_order :=
        order_users_for_slot shuffle_users db employees strategy ((seed * 31) ^^^ bay.id)
          current end_limit
      let fr := frag_user_results db tz current end_limit duration_min bay_free users_in_order
      if fr.1.isEmpty then (proposals, seen, false)
      else
        let first_start := frag_first_start fr.1
        let last_end := frag_last_end fr.1
        let key := dedupe_key bay.id none first_start last_end
        if seen.contains key then (proposals, seen, false)
        else
          (proposals ++ [fragmented_proposal db tz bay payload.return_candidates
              payload.max_candidates_per_slot payload.prefer_user_id fr.1 fr.2],
            seen ++ [key], true)

/-- The bays loop of one scan iteration (break once slot_added). -/
def process_bays (shuffle_users : Nat → List User → List User)
    (shuffle_eligible : Nat → List (User × Int × List String) → List (User × Int × List String))
    (db : DB) (payload : AvailabilityRequest) (tz : Int) (strategy : AssignmentStrategy)
    (employees coverers : List User) (current cand_end : Instant) (seed : Nat)
    (latest_end : Instant) (duration_min : Int) :
    List WorkshopBay → List AvailabilityProposal × List (Nat × Nat × Int × Int) →
    List AvailabilityProposal × List (Nat × Nat × Int × Int)
  | [], st => st
  | bay :: rest, st =>
    let out := process_bay shuffle_users shuffle_eligible db payload tz strategy
      employees coverers current cand_end seed latest_end duration_min bay st.1 st.2
    if out.2.2 then (out.1, out.2.1)
    else process_bays shuffle_users shuffle_eligible db payload tz strategy
      employees coverers current cand_end seed latest_end duration_min rest
      (out.1, out.2.1)

/-- The main scan loop of availability_auto, fuel-bounded.  The source's
`while current + slot_delta <= latest_end and len(proposals) < num_proposals`
advances current by at least one minute per iteration (step = 1), so fuel
(latest_end - current).toNat + 1 makes the recursion agree with the loop for
any positive duration. -/
def availability_scan (shuffle_users : Nat → List User → List User)
    (shuffle_eligible : Nat → List (User × Int × List String) → List (User × Int × List String))
    (db : DB) (payload : AvailabilityRequest) (tz : Int) (strategy : AssignmentStrategy)
    (employees : List User) (bays : List WorkshopBay) (duration_min : Int)
    (latest_end : Instant) :
    Nat → Instant → List AvailabilityProposal → List (Nat × Nat × Int × Int) →
    List AvailabilityProposal
  | 0, _, proposals, _ => proposals
  | fuel + 1, current, proposals, seen =>
    if !(decide (current + duration_min ≤ latest_end) &&
        decide ((proposals.length : Int) < payload.num_proposals)) then proposals
    else
      let cand_end := current + duration_min
      -- COARSE: jump to the next instant with wall-clock cover and a free bay
      let coarse_ok :=
        cheap_wallclock_cover employees current cand_end tz db &&
        bays.any fun b => bay_slot_is_free db b.id current cand_end payload.include_buffers
      let cur1 :=
        if coarse_ok then some current
        else next_any_bay_cover_start db bays employees duration_min tz 1 latest_end
          payload.include_buffers ((latest_end - current).toNat + 1) current
      match cur1 with
      | none => proposals
      | some current =>
        let cand_end := current + duration_min
        let seed := slot_seed_of current payload.workshop_id
        let coverers := employees.filter fun u =>
          wallclock_covers db u.id current cand_end tz
        if coverers.isEmpty then
          match next_any_bay_cover_start db bays employees duration_min tz 1 latest_end
              payload.include_buffers ((latest_end - current).toNat + 1)
              (round_up_local (current + 1) 1 tz) with
          | none => proposals
          | some nxt =>
            availability_scan shuffle_users shuffle_eligible db payload tz strategy
              employees bays duration_min latest_end fuel nxt proposals seen
        else
          let bays_ordered := bays.insertionSort fun a b => a.id ≤ b.id
          let st := process_bays shuffle_users shuffle_eligible db payload tz strategy
            employees coverers current cand_end seed latest_end duration_min
            bays_ordered (proposals, seen)
          availability_scan shuffle_users shuffle_eligible db payload tz strategy
            employees bays duration_min latest_end fuel (current + 1) st.1 st.2

/-- The requested duration resolved by availability_auto:
int(payload.override_duration_min or _duration_for_service_item(si)) — a
missing or zero override falls back to the service item's default. -/
def resolved_duration (payload : AvailabilityRequest) (si : WorkshopServiceItem) : Int :=
  match payload.override_duration_min with
  | some d => if d = 0 then duration_for_service_item si else d
  | none => duration_for_service_item si

/-- booking.availability_auto.  The two seeded shuffles are Python's
random.Random(seed).shuffle (standard library, external to the repository),
passed in as deterministic functions of the seed. -/
def availability_auto (shuffle_users : Nat → List User → List User)
    (shuffle_eligible : Nat → List (User × Int × List String) → List (User × Int × List String))
    (db : DB) (payload : AvailabilityRequest) (now : Instant) :
    Except HErr AvailabilityResponse :=
  match ensure_workshop db payload.workshop_id with
  | .error e => .error e
  | .ok ws =>
    let tz := tz_for_workshop ws
    match db.service_items.find? fun si =>
        si.id == payload.service_item_id && si.workshop_id == payload.workshop_id with
    | none => .error ⟨404⟩
    | some si =>
      let duration_min := resolved_duration payload si
      if duration_min ≤ 0 then .error ⟨400⟩
      else
        -- the car looked up from the registration number is accepted and then
        -- ignored by _candidate_bays_for_vehicle (no filtering on the vehicle)
        let bays := candidate_bays_for_vehicle db payload.workshop_id
        if bays.isEmpty then
          .ok ⟨[], some "Inga arbetsplatser matchar fordonsprofilen."⟩
        else
          let employees := employees_in_workshop db payload.workshop_id
          if employees.isEmpty then
            .ok ⟨[], some "Verkstaden saknar användare med schema-roller."⟩
          else
            let start_from_raw := payload.earliest_from.getD now
            let min_start := now + max 0 payload.min_lead_time_min
            let start_from := max start_from_raw min_start
            let latest_end := payload.latest_end.getD (start_from + 30 * 1440)
            if latest_end ≤ start_from then .error ⟨400⟩
            else
              let current := round_up_local start_from 1 tz
              let strategy := payload.assignment_strategy.getD .random
              let proposals := availability_scan shuffle_users shuffle_eligible db
                payload tz strategy employees bays duration_min latest_end
                ((latest_end - current).toNat + 1) current [] []
              let reason := if proposals.isEmpty then
                  some "Ingen ledig tid (med tillgänglig mekaniker) i valt intervall. Välj en annan dag"
                else none
              .ok ⟨proposals, reason⟩

/-! ### Concrete states used by the scenario checks -/

/-- Working hours: Monday (weekday 0) 08:00–17:00 wall clock. -/
def mondayWorkingHours : UserWorkingHours :=
  { id := 1, user_id := 1, weekday := 0, start_time := 480, end_time := 1020 }

/-- A schedule-eligible mechanic of workshop 1. -/
def emp1 : User := { id := 1, role := .workshop_employee, workshop_ids := [1] }

/-- Workshop 1 in Europe/Stockholm (standard offset +60; the scenario days
are winter Mondays). -/
def ws1 : Workshop := { id := 1, timezone := some 60 }

def bay1 : WorkshopBay := { id := 1, workshop_id := 1, name := "Bay 1" }

def bay2 : WorkshopBay := { id := 2, workshop_id := 1, name := "Bay 2" }

/-- A 60-minute service item of workshop 1. -/
def si60 : WorkshopServiceItem := { id := 1, workshop_id := 1, default_duration_min := some 60 }

/-- One CANCELLED booking 10:00–11:00 (day 0) in bay 1. -/
def db_cancelled_overlap : DB :=
  { bookings := [{ id := 1, workshop_id := 1, bay_id := 1, title := "b",
                   start_at := 600, end_at := 660, status := .cancelled }] }

/-- One active booking 10:00–11:00 (day 0) in bay 1 whose after-buffer of 300
minutes reaches past the 120-minute query padding. -/
def db_far_buffer : DB :=
  { bookings := [{ id := 1, workshop_id := 1, bay_id := 1, title := "b",
                   start_at := 600, end_at := 660, buffer_after_min := 300,
                   status := .booked }] }

/-- Spec scenario for the bay check: an active booking 10:00–11:00 with
buffer_after = 15 min in bay 1. -/
def db_buffer15 : DB :=
  { bookings := [{ id := 1, workshop_id := 1, bay_id := 1, title := "b",
                   start_at := 600, end_at := 660, buffer_after_min := 15,
                   status := .booked }] }

/-- Mechanic 1 with Monday 08:00–17:00 hours, no time off, no bookings. -/
def db_monday : DB :=
  { workshops := [ws1], users := [emp1], working_hours := [mondayWorkingHours] }

/-- db_monday plus a booking 10:00–11:00 with buffer_before = 30 assigned to
mechanic 1. -/
def db_booked_before : DB :=
  { db_monday with
    bookings := [{ id := 10, workshop_id := 1, bay_id := 1, title := "b",
                   start_at := 600, end_at := 660, buffer_before_min := 30,
                   assigned_user_id := some 1 }] }

/-- db_monday plus a time off ending exactly at 10:00 (touching). -/
def db_timeoff_touch : DB :=
  { db_monday with timeoffs := [{ id := 1, user_id := 1, start_at := 540, end_at := 600 }] }

/-- Planner state: one workshop, one bay, one mechanic, one 60-minute service
item, empty calendar. -/
def db_plain : DB :=
  { workshops := [ws1], bays := [bay1], users := [emp1],
    working_hours := [mondayWorkingHours], service_items := [si60] }

/-- Planner request on day 0 (a Monday), window 07:00–16:00 UTC, two
proposals, LEAST_BUSY ordering (no shuffle on multi-element lists). -/
def req_two : AvailabilityRequest :=
  { workshop_id := 1, service_item_id := 1, earliest_from := some 420,
    latest_end := some 960, num_proposals := 2,
    assignment_strategy := some .least_busy }

/-- Planner state for the fragmentation scenario: bay 1 is blocked except for
a 40-minute and a 50-minute gap, bay 2 is open (so the coarse prefilter
passes), the mechanic is free all day. -/
def db_frag : DB :=
  { workshops := [ws1], bays := [bay1, bay2], users := [emp1],
    working_hours := [mondayWorkingHours], service_items := [si60],
    bookings := [
      { id := 1, workshop_id := 1, bay_id := 1, title := "b1", start_at := 460, end_at := 600 },
      { id := 2, workshop_id := 1, bay_id := 1, title := "b2", start_at := 650, end_at := 960 }] }

/-- 90-minute request with fragmentation allowed. -/
def req_frag : AvailabilityRequest :=
  { workshop_id := 1, service_item_id := 1, earliest_from := some 420,
    latest_end := some 960, num_proposals := 1, override_duration_min := some 90,
    assignment_strategy := some .least_busy, allow_fragmented_parts := true }

/-- The same request with fragmentation forbidden. -/
def req_frag_off : AvailabilityRequest :=
  { req_frag with allow_fragmented_parts := false }

/-- The identity permutation, standing in for random.Random(seed).shuffle in
concrete runs where every shuffled list has at most one element (Python's
Fisher–Yates shuffle does not move a list of length 0 or 1). -/
def id_shuffle {α : Type} : Nat → List α → List α := fun _ l => l

/-- The master booking of chain "X": carries the price and the service item. -/
def master_X : BayBooking :=
  { id := 1, workshop_id := 1, bay_id := 1, title := "master",
    start_at := 600, end_at := 660, status := .booked,
    chain_token := some "X", price_net_ore := some 50000,
    service_item_id := some 1 }

/-- Chain-master state: workshop 1, bay 1, an existing master booking with
token "X" carrying a price and a service item. -/
def db_chain : DB :=
  { workshops := [ws1], bays := [bay1], bookings := [master_X], next_id := 2 }

/-- Second part of chain "X": same workshop, non-overlapping time, and a
price supplied by the caller that must be stripped. -/
def req_chain : AutoScheduleRequest :=
  { workshop_id := 1, bay_id := 1, title := "part2", start_at := 1200,
    end_at := 1260, chain_token := some "X", price_net_ore := some 20000 }

/-- Conflicting create: bay 1 already holds 10:00–11:00; the new payload
overlaps it 10:30–11:30. -/
def db_one_booking : DB :=
  { workshops := [ws1], bays := [bay1],
    bookings := [{ id := 1, workshop_id := 1, bay_id := 1, title := "b",
                   start_at := 600, end_at := 660, status := .booked }],
    next_id := 2 }

def payload_conflict : BayBookingCreate :=
  { workshop_id := 1, bay_id := 1, title := "c", start_at := 630, end_at := 690 }

/-! ### Spec-side predicates (formalizing the claims' words, for comparison
with the code-side definitions) -/

/-- Claim C1's bay-freeness, as the spec words it: no ACTIVE booking of the
bay (CANCELLED / NO_SHOW are non-blocking) has a buffer-expanded effective
interval overlapping the proposed interval, and no closure of the bay
overlaps the proposed interval. -/
def spec_bay_is_free (db : DB) (bay_id : Nat) (s e : Instant) : Bool :=
  (db.bookings.all fun b =>
    !(b.bay_id == bay_id && !(b.status == .cancelled) && !(b.status == .no_show) &&
      overlap s e (b.start_at - b.buffer_before_min) (b.end_at + b.buffer_after_min))) &&
  (db.closures.all fun c => !(c.bay_id == bay_id && overlap_clause c.start_at c.end_at s e))

/-- Claim C2's mechanic-freeness, as the spec words it: the interval is
contained in one merged working window of its local day(s), the time-off
check finds nothing, and NO assigned booking's buffer-expanded interval
overlaps the proposal (without the source's raw-interval prefilter). -/
def spec_mechanic_is_free (db : DB) (user : User) (s e : Instant) (tz : Int) : Bool :=
  decide (s < e) &&
  ((user_windows_for_interval db user.id s e tz).any fun w =>
    decide (w.1 ≤ s) && decide (e ≤ w.2)) &&
  !(user_timeoff_overlaps db user.id s e) &&
  (db.bookings.all fun b =>
    !(b.assigned_user_id == some user.id &&
      overlap s e (b.start_at - b.buffer_before_min) (b.end_at + b.buffer_after_min)))

/-- Membership is unchanged by the Python sort. -/
theorem mem_sort_pairs {x : Int × Int} {l : List (Int × Int)} :
    x ∈ sort_pairs l ↔ x ∈ l := List.mem_insertionSort PairLe

/-- C9: the bay conflict check and the bay free-segment builder ignore their
include_buffers argument; booking buffers are always applied. -/
theorem C9_include_buffers_no_effect :
    ∀ (db : DB) (bay_id : Nat) (s e : Instant) (b1 b2 : Bool)
      (segs : List (Int × Int)),
      bay_slot_is_free db bay_id s e b1 = bay_slot_is_free db bay_id s e b2 ∧
      bay_free_segments db bay_id segs b1 = bay_free_segments db bay_id segs b2 :=
  fun _ _ _ _ _ _ _ => ⟨rfl, rfl⟩

/-- C10: the time-off check is a closed-closed range overlap — it holds iff
some time-off of the user satisfies min(s,e) ≤ off_end and off_start ≤
max(s,e); a time-off merely touching an endpoint therefore counts and forces
_user_is_available to false, while the booking/bay overlap test (overlap) is
strict half-open, under which touching intervals never conflict. -/
theorem C10_timeoff_closed_overlap :
    (∀ (db : DB) (uid : Nat) (s e : Instant),
      user_timeoff_overlaps db uid s e = true ↔
        ∃ t ∈ db.timeoffs, t.user_id = uid ∧ min s e ≤ t.end_at ∧ t.start_at ≤ max s e) ∧
    (∀ (db : DB) (u : User) (s e : Instant) (tz : Int),
      user_timeoff_overlaps db u.id s e = true → user_is_available db u s e tz = false) ∧
    (∀ (db : DB) (uid : Nat) (s e : Instant) (t : UserTimeOff),
      t ∈ db.timeoffs → t.user_id = uid → t.start_at ≤ t.end_at → s ≤ e →
      (t.end_at = s ∨ e = t.start_at) → user_timeoff_overlaps db uid s e = true) ∧
    (∀ (a b c : Instant), overlap a b b c = false ∧ overlap b c a b = false) := by
  refine ⟨?_, ?_, ?_, ?_⟩
  · intro db uid s e
    simp only [user_timeoff_overlaps, List.any_eq_true, Bool.and_eq_true, beq_iff_eq,
      decide_eq_true_eq]
    constructor
    · rintro ⟨t, ht, ⟨h1, h2⟩, h3⟩; exact ⟨t, ht, h1, h2, h3⟩
    · rintro ⟨t, ht, h1, h2, h3⟩; exact ⟨t, ht, ⟨h1, h2⟩, h3⟩
  · intro db u s e tz h
    unfold user_is_available
    simp [h]
  · intro db uid s e t ht huid hwf hse hcase
    simp only [user_timeoff_overlaps, List.any_eq_true, Bool.and_eq_true, beq_iff_eq,
      decide_eq_true_eq]
    rcases hcase with h | h
    · refine ⟨t, ht, ⟨⟨huid, ?_⟩, ?_⟩⟩
      · rw [min_eq_left hse]; exact h.ge
      · rw [max_eq_right hse]; exact hwf.trans (h.le.trans hse)
    · refine ⟨t, ht, ⟨⟨huid, ?_⟩, ?_⟩⟩
      · rw [min_eq_left hse]; exact (hse.trans h.le).trans hwf
      · rw [max_eq_right hse]; exact h.ge
  · intro a b c
    constructor <;> simp [overlap]

/-- Witness for C10: a time-off 09:00–10:00 touching a 10:00–11:00 proposal
makes the mechanic unavailable. -/
theorem C10_witness :
    user_timeoff_overlaps db_timeoff_touch 1 600 660 = true ∧
    user_is_available db_timeoff_touch emp1 600 660 60 = false :=
  ⟨by decide, C10_timeoff_closed_overlap.2.1 db_timeoff_touch emp1 600 660 60 (by decide)⟩

/-- C1 as stated is false in both directions: a CANCELLED booking still
blocks its slot, and an active booking whose buffer reaches beyond the
120-minute query padding does not block. -/
theorem C1_claim_counterexample :
    (bay_slot_is_free db_cancelled_overlap 1 600 660 true = false ∧
      spec_bay_is_free db_cancelled_overlap 1 600 660 = true) ∧
    (bay_slot_is_free db_far_buffer 1 900 930 true = true ∧
      spec_bay_is_free db_far_buffer 1 900 930 = false) := by decide

/-- C1 (amended): the bay check returns true iff no booking of the bay — of
ANY status — whose raw interval overlaps the proposed interval padded by 120
minutes on each side has a buffer-expanded effective interval overlapping
the proposed interval, and no BayClosure of the bay overlaps the proposed
interval; in particular the spec scenario (active booking 10:00–11:00 with
buffer_after = 15, request 11:00–11:10 in the same bay) is rejected. -/
theorem C1_bay_free_characterization :
    (∀ (db : DB) (bay_id : Nat) (s e : Instant) (inc : Bool), s < e →
      (bay_slot_is_free db bay_id s e inc = true ↔
        (∀ b ∈ db.bookings, b.bay_id = bay_id →
          overlap_clause b.start_at b.end_at (s - 120) (e + 120) = true →
          overlap s e (b.start_at - b.buffer_before_min)
            (b.end_at + b.buffer_after_min) = false) ∧
        (∀ c ∈ db.closures, c.bay_id = bay_id →
          overlap_clause c.start_at c.end_at s e = false))) ∧
    bay_slot_is_free db_buffer15 1 660 670 true = false := by
  constructor
  · intro db bay_id s e inc _
    unfold bay_slot_is_free
    simp only []
    split
    case isTrue h =>
      simp only [Bool.false_eq_true, false_iff, not_and]
      intro hb
      rw [List.any_eq_true] at h
      obtain ⟨b, hbmem, hbov⟩ := h
      rw [List.mem_filter, Bool.and_eq_true, beq_iff_eq] at hbmem
      intro hc
      have := hb b hbmem.1 hbmem.2.1 hbmem.2.2
      rw [this] at hbov
      exact Bool.false_ne_true hbov
    case isFalse h =>
      rw [List.any_eq_true] at h
      push_neg at h
      constructor
      · intro hiso
        rw [Option.isNone_iff_eq_none, List.find?_eq_none] at hiso
        constructor
        · intro b hbmem hbay hclause
          by_contra hov
          rw [Bool.not_eq_false] at hov
          exact (h b (List.mem_filter.mpr ⟨hbmem, by rw [Bool.and_eq_true, beq_iff_eq]; exact ⟨hbay, hclause⟩⟩)) hov
        · intro c hcmem hcbay
          by_contra hov
          rw [Bool.not_eq_false] at hov
          have := hiso c hcmem
          rw [Bool.and_eq_true, beq_iff_eq] at this
          exact this ⟨hcbay, hov⟩
      · intro ⟨_, hcls⟩
        rw [Option.isNone_iff_eq_none, List.find?_eq_none]
        intro c hcmem
        rw [Bool.and_eq_true, beq_iff_eq]
        rintro ⟨hcbay, hov⟩
        rw [hcls c hcmem hcbay] at hov
        exact Bool.false_ne_true hov
  · decide

/-- Witness for C1 (amended): on an empty calendar the characterization's
right-hand side holds and the check returns true. -/
theorem C1_witness :
    (0 : Int) < 60 ∧ bay_slot_is_free db_monday 1 0 60 true = true :=
  ⟨by decide,
    (C1_bay_free_characterization.1 db_monday 1 0 60 true (by decide)).mpr (by decide)⟩

/-- C2 as stated is false: a booking assigned to the mechanic whose
buffer-expanded interval overlaps the proposal does not block it when the raw
interval does not overlap (the query prefilters on the raw interval).  Here
the booking is 10:00–11:00 with buffer_before = 30 and the proposal is
09:00–09:50: effectively busy from 09:30, yet reported available. -/
theorem C2_claim_counterexample :
    user_is_available db_booked_before emp1 540 590 60 = true ∧
    spec_mechanic_is_free db_booked_before emp1 540 590 60 = false := by decide

/-- C2 (amended): for end > start, the mechanic check returns true iff the
interval is contained in one merged working window of its local day(s), the
closed-interval time-off check finds nothing, and no assigned booking whose
RAW interval overlaps the proposal has a buffer-expanded interval overlapping
it; in particular the spec scenario holds (Mon 08:00–17:00 local, 60 minutes
at 09:00 local is available, 16:30–17:30 local is not). -/
theorem C2_user_available_characterization :
    (∀ (db : DB) (u : User) (s e : Instant) (tz : Int), s < e →
      (user_is_available db u s e tz = true ↔
        (∃ w ∈ user_windows_for_interval db u.id s e tz, w.1 ≤ s ∧ e ≤ w.2) ∧
        user_timeoff_overlaps db u.id s e = false ∧
        (∀ b ∈ db.bookings, b.assigned_user_id = some u.id →
          s < b.end_at → b.start_at < e →
          (b.end_at + b.buffer_after_min ≤ s ∨ e ≤ b.start_at - b.buffer_before_min)))) ∧
    user_is_available db_monday emp1 480 540 60 = true ∧
    user_is_available db_monday emp1 930 990 60 = false := by
  refine ⟨?_, by decide, by decide⟩
  intro db u s e tz hlt
  unfold user_is_available
  simp only []
  rw [if_neg (not_le.mpr hlt)]
  split
  case isTrue h2 =>
    simp only [Bool.false_eq_true, false_iff, not_and]
    intro hwin
    exfalso
    rw [Bool.not_eq_true', List.any_eq_false] at h2
    obtain ⟨w, hw, hw1, hw2⟩ := hwin
    have := h2 w (mem_sort_pairs.mpr hw)
    rw [Bool.and_eq_true, decide_eq_true_eq, decide_eq_true_eq] at this
    exact this ⟨hw1, hw2⟩
  case isFalse h2 =>
    rw [Bool.not_eq_true] at h2
    have h2' : (sort_pairs (user_windows_for_interval db u.id s e tz)).any
        (fun w => decide (w.1 ≤ s) && decide (e ≤ w.2)) = true := by simpa using h2
    rw [List.any_eq_true] at h2'
    obtain ⟨w, hw, hwc⟩ := h2'
    rw [Bool.and_eq_true, decide_eq_true_eq, decide_eq_true_eq] at hwc
    split
    case isTrue h3 =>
      simp only [Bool.false_eq_true, false_iff, not_and]
      intro _ hto
      rw [hto] at h3
      exact absurd h3 (by simp)
    case isFalse h3 =>
      rw [Bool.not_eq_true] at h3
      constructor
      · intro hall
        refine ⟨⟨w, mem_sort_pairs.mp hw, hwc.1, hwc.2⟩, h3, ?_⟩
        intro b hb hba hbe hbs
        rw [List.all_eq_true] at hall
        have hmem : b ∈ db.bookings.filter fun b =>
            b.assigned_user_id == some u.id &&
            !(decide (b.end_at ≤ s) || decide (b.start_at ≥ e)) := by
          rw [List.mem_filter]
          refine ⟨hb, ?_⟩
          rw [Bool.and_eq_true, beq_iff_eq]
          refine ⟨hba, ?_⟩
          rw [Bool.not_eq_true', Bool.or_eq_false_iff, decide_eq_false_iff_not,
            decide_eq_false_iff_not]
          exact ⟨not_le.mpr hbe, not_le.mpr hbs⟩
        have := hall b hmem
        rw [Bool.or_eq_true, decide_eq_true_eq, decide_eq_true_eq] at this
        exact this
      · rintro ⟨-, -, hbook⟩
        rw [List.all_eq_true]
        intro b hmem
        rw [List.mem_filter, Bool.and_eq_true, beq_iff_eq, Bool.not_eq_true',
          Bool.or_eq_false_iff, decide_eq_false_iff_not, decide_eq_false_iff_not] at hmem
        obtain ⟨hb, hba, hbe, hbs⟩ := hmem
        rw [Bool.or_eq_true, decide_eq_true_eq, decide_eq_true_eq]
        exact hbook b hb hba (not_le.mp hbe) (not_le.mp hbs)

/-- Witness for C2 (amended): the 09:00-local scenario discharges the
hypothesis and the characterization's right-hand side concretely. -/
theorem C2_witness :
    (480 : Int) < 540 ∧ user_is_available db_monday emp1 480 540 60 = true :=
  ⟨by decide,
    (C2_user_available_characterization.1 db_monday emp1 480 540 60 (by decide)).mpr
      (by decide)⟩

/-! ### C6: correctness of _segment_subtract -/

/-- The pair order as a proposition on components. -/
theorem pairLe_iff (a b : Int × Int) :
    PairLe a b ↔ a.1 < b.1 ∨ (a.1 = b.1 ∧ a.2 ≤ b.2) := by
  unfold PairLe pair_le
  rw [Bool.or_eq_true, Bool.and_eq_true]
  simp only [decide_eq_true_eq]

instance : IsTotal (Int × Int) PairLe :=
  ⟨fun a b => by rw [pairLe_iff, pairLe_iff]; omega⟩

instance : IsTrans (Int × Int) PairLe :=
  ⟨fun a b c hab hbc => by
    rw [pairLe_iff] at hab hbc ⊢; omega⟩

/-- sort_pairs output is sorted by the first component. -/
theorem sort_pairs_sorted_fst (l : List (Int × Int)) :
    (sort_pairs l).Pairwise fun a b => a.1 ≤ b.1 := by
  have h := List.sorted_insertionSort PairLe l
  exact h.imp fun hab => by rw [pairLe_iff] at hab; omega

/-- The three facts omega needs to treat `max a b` as an atom. -/
theorem max_facts (a b : Int) : a ≤ max a b ∧ b ≤ max a b ∧ (max a b = a ∨ max a b = b) :=
  ⟨le_max_left a b, le_max_right a b, max_choice a b⟩

/-- Every segment emitted by the sweep is a non-empty sub-segment of
[cur, e). -/
theorem subtract_sweep_bounds (blocks : List (Int × Int)) :
    ∀ (cur e : Int) (o : Int × Int), o ∈ subtract_sweep cur e blocks →
      cur ≤ o.1 ∧ o.1 < o.2 ∧ o.2 ≤ e := by
  induction blocks with
  | nil =>
    intro cur e o ho
    unfold subtract_sweep at ho
    by_cases h : cur < e
    · rw [if_pos h, List.mem_singleton] at ho
      subst ho
      exact ⟨le_refl _, h, le_refl _⟩
    · rw [if_neg h] at ho
      exact absurd ho (List.not_mem_nil o)
  | cons b rest ih =>
    intro cur e o ho
    obtain ⟨bs, be⟩ := b
    unfold subtract_sweep at ho
    split at ho
    case isTrue hskip => exact ih cur e o ho
    case isFalse hskip =>
      rw [Bool.or_eq_true, decide_eq_true_eq, decide_eq_true_eq] at hskip
      push_neg at hskip
      obtain ⟨hm1, hm2, hm3⟩ := max_facts cur be
      simp only [] at ho
      split at ho
      case isTrue hstop =>
        split at ho
        case isTrue hpre =>
          rw [List.mem_singleton] at ho
          subst ho; simp only
          omega
        case isFalse hpre => exact absurd ho (List.not_mem_nil o)
      case isFalse hstop =>
        rw [List.mem_append] at ho
        rcases ho with ho | ho
        · split at ho
          case isTrue hpre =>
            rw [List.mem_singleton] at ho
            subst ho; simp only
            omega
          case isFalse hpre => exact absurd ho (List.not_mem_nil o)
        · have := ih (max cur be) e o ho
          omega

/-- Point-wise description of the sweep: under blocks sorted by start, the
emitted segments cover exactly [cur, e) minus the blocks. -/
theorem subtract_sweep_mem (blocks : List (Int × Int)) :
    ∀ (cur e : Int), blocks.Pairwise (fun a b => a.1 ≤ b.1) →
      ∀ x : Int, (∃ o ∈ subtract_sweep cur e blocks, o.1 ≤ x ∧ x < o.2) ↔
        (cur ≤ x ∧ x < e ∧ ∀ b ∈ blocks, ¬(b.1 ≤ x ∧ x < b.2)) := by
  induction blocks with
  | nil =>
    intro cur e _ x
    unfold subtract_sweep
    split
    case isTrue h =>
      simp only [List.mem_singleton, List.not_mem_nil, false_implies, implies_true,
        and_true]
      constructor
      · rintro ⟨o, rfl, h1, h2⟩; exact ⟨h1, h2⟩
      · rintro ⟨h1, h2⟩; exact ⟨(cur, e), rfl, h1, h2⟩
    case isFalse h =>
      constructor
      · rintro ⟨o, ho, -, -⟩
        exact absurd ho (List.not_mem_nil o)
      · rintro ⟨h1, h2, -⟩
        exact absurd (h1.trans_lt h2) h
  | cons b rest ih =>
    intro cur e hsorted x
    obtain ⟨bs, be⟩ := b
    rw [List.pairwise_cons] at hsorted
    obtain ⟨hfirst, hrest⟩ := hsorted
    unfold subtract_sweep
    split
    case isTrue hskip =>
      rw [Bool.or_eq_true, decide_eq_true_eq, decide_eq_true_eq] at hskip
      rw [ih cur e hrest x]
      constructor
      · rintro ⟨h1, h2, h3⟩
        refine ⟨h1, h2, ?_⟩
        intro c hc
        rcases List.mem_cons.mp hc with rfl | hc
        · simp only; omega
        · exact h3 c hc
      · rintro ⟨h1, h2, h3⟩
        exact ⟨h1, h2, fun c hc => h3 c (List.mem_cons_of_mem _ hc)⟩
    case isFalse hskip =>
      rw [Bool.or_eq_true, decide_eq_true_eq, decide_eq_true_eq] at hskip
      push_neg at hskip
      obtain ⟨hm1, hm2, hm3⟩ := max_facts cur be
      simp only []
      split
      case isTrue hstop =>
        constructor
        · intro hex
          obtain ⟨o, ho, h1, h2⟩ := hex
          have hpre : o = (cur, bs) := by
            split at ho
            case isTrue hp => exact List.mem_singleton.mp ho
            case isFalse hp => exact absurd ho (List.not_mem_nil o)
          subst hpre
          simp only at h1 h2
          refine ⟨h1, by omega, ?_⟩
          intro c hc
          rcases List.mem_cons.mp hc with rfl | hc
          · simp only; omega
          · have := hfirst c hc
            omega
        · rintro ⟨h1, h2, h3⟩
          have hb := h3 (bs, be) (List.mem_cons_self _ _)
          simp only [not_and, not_lt] at hb
          have hstop2 : e ≤ max cur be := hstop
          have hxbs : x < bs := by omega
          refine ⟨(cur, bs), ?_, h1, hxbs⟩
          rw [if_pos (show bs > cur by omega)]
          exact List.mem_singleton.mpr rfl
      case isFalse hstop =>
        rw [not_le] at hstop
        constructor
        · intro hex
          obtain ⟨o, ho, h1, h2⟩ := hex
          rw [List.mem_append] at ho
          rcases ho with ho | ho
          · have hpre : o = (cur, bs) := by
              split at ho
              case isTrue hp => exact List.mem_singleton.mp ho
              case isFalse hp => exact absurd ho (List.not_mem_nil o)
            subst hpre
            simp only at h1 h2
            refine ⟨h1, by omega, ?_⟩
            intro c hc
            rcases List.mem_cons.mp hc with rfl | hc
            · simp only; omega
            · have := hfirst c hc
              omega
          · have := (ih (max cur be) e hrest x).mp ⟨o, ho, h1, h2⟩
            obtain ⟨hh1, hh2, hh3⟩ := this
            refine ⟨by omega, hh2, ?_⟩
            intro c hc
            rcases List.mem_cons.mp hc with rfl | hc
            · simp only; omega
            · exact hh3 c hc
        · rintro ⟨h1, h2, h3⟩
          have hb := h3 (bs, be) (List.mem_cons_self _ _)
          simp only [not_and, not_lt] at hb
          by_cases hx : x < bs
          · refine ⟨(cur, bs), List.mem_append.mpr (Or.inl ?_), h1, hx⟩
            rw [if_pos (show bs > cur by omega)]
            exact List.mem_singleton.mpr rfl
          · have hxcur2 : max cur be ≤ x := by omega
            have := (ih (max cur be) e hrest x).mpr
              ⟨hxcur2, h2, fun c hc => h3 c (List.mem_cons_of_mem _ hc)⟩
            obtain ⟨o, ho, ho1, ho2⟩ := this
            exact ⟨o, List.mem_append.mpr (Or.inr ho), ho1, ho2⟩

/-- With non-degenerate blocks the sweep's output is sorted and
non-overlapping. -/
theorem subtract_sweep_pairwise (blocks : List (Int × Int)) :
    ∀ (cur e : Int), (∀ b ∈ blocks, b.1 < b.2) →
      (subtract_sweep cur e blocks).Pairwise fun o p => o.2 ≤ p.1 := by
  induction blocks with
  | nil =>
    intro cur e _
    unfold subtract_sweep
    by_cases h : cur < e
    · rw [if_pos h]; exact List.pairwise_singleton _ _
    · rw [if_neg h]; exact List.Pairwise.nil
  | cons b rest ih =>
    intro cur e hpos
    obtain ⟨bs, be⟩ := b
    have hpos_rest : ∀ c ∈ rest, c.1 < c.2 := fun c hc =>
      hpos c (List.mem_cons_of_mem _ hc)
    have hbe : bs < be := hpos (bs, be) (List.mem_cons_self _ _)
    unfold subtract_sweep
    split
    case isTrue hskip => exact ih cur e hpos_rest
    case isFalse hskip =>
      rw [Bool.or_eq_true, decide_eq_true_eq, decide_eq_true_eq] at hskip
      push_neg at hskip
      obtain ⟨hm1, hm2, hm3⟩ := max_facts cur be
      simp only []
      split
      case isTrue hstop =>
        split
        · exact List.pairwise_singleton _ _
        · exact List.Pairwise.nil
      case isFalse hstop =>
        apply List.pairwise_append.mpr
        refine ⟨?_, ih (max cur be) e hpos_rest, ?_⟩
        · split
          · exact List.pairwise_singleton _ _
          · exact List.Pairwise.nil
        · intro o ho p hp
          have hbp := subtract_sweep_bounds rest (max cur be) e p hp
          split at ho
          case isTrue hpre =>
            rw [List.mem_singleton] at ho
            subst ho
            simp only
            omega
          case isFalse hpre => exact absurd ho (List.not_mem_nil o)

/-- Point-wise description of booking._segment_subtract (no hypotheses
needed): its output covers exactly the base minus the blocks. -/
theorem segment_subtract_mem (base blocks : List (Int × Int)) (x : Int) :
    (∃ o ∈ segment_subtract base blocks, o.1 ≤ x ∧ x < o.2) ↔
      ((∃ s ∈ base, s.1 ≤ x ∧ x < s.2) ∧ ¬ ∃ b ∈ blocks, b.1 ≤ x ∧ x < b.2) := by
  cases base with
  | nil =>
    unfold segment_subtract
    simp
  | cons s0 rest =>
    unfold segment_subtract
    simp only []
    have hsorted := sort_pairs_sorted_fst blocks
    constructor
    · rintro ⟨o, ho, hx1, hx2⟩
      rw [List.mem_filter] at ho
      rw [List.mem_flatMap] at ho
      obtain ⟨⟨seg, hseg, hosweep⟩, -⟩ := ho
      obtain ⟨h1, h2, h3⟩ :=
        (subtract_sweep_mem (sort_pairs blocks) seg.1 seg.2 hsorted x).mp
          ⟨o, hosweep, hx1, hx2⟩
      refine ⟨⟨seg, hseg, h1, h2⟩, ?_⟩
      rintro ⟨b, hb, hbx⟩
      exact h3 b (mem_sort_pairs.mpr hb) hbx
    · rintro ⟨⟨seg, hseg, h1, h2⟩, hnb⟩
      obtain ⟨o, ho, hx1, hx2⟩ :=
        (subtract_sweep_mem (sort_pairs blocks) seg.1 seg.2 hsorted x).mpr
          ⟨h1, h2, fun b hb hbx => hnb ⟨b, mem_sort_pairs.mp hb, hbx⟩⟩
      refine ⟨o, ?_, hx1, hx2⟩
      rw [List.mem_filter]
      refine ⟨List.mem_flatMap.mpr ⟨seg, hseg, ho⟩, ?_⟩
      rw [decide_eq_true_eq]
      omega

/-- With sorted, non-overlapping base segments and non-degenerate blocks the
output of _segment_subtract is sorted and non-overlapping. -/
theorem segment_subtract_pairwise (base blocks : List (Int × Int))
    (hbase : base.Pairwise fun a b => a.2 ≤ b.1)
    (hblocks : ∀ b ∈ blocks, b.1 < b.2) :
    (segment_subtract base blocks).Pairwise fun o p => o.2 ≤ p.1 := by
  have hpos_sorted : ∀ b ∈ sort_pairs blocks, b.1 < b.2 := fun b hb =>
    hblocks b (mem_sort_pairs.mp hb)
  have hflat : ∀ (l : List (Int × Int)), l.Pairwise (fun a b => a.2 ≤ b.1) →
      (l.flatMap fun seg => subtract_sweep seg.1 seg.2 (sort_pairs blocks)).Pairwise
        fun o p => o.2 ≤ p.1 := by
    intro l
    induction l with
    | nil => intro _; exact List.Pairwise.nil
    | cons s rest ihl =>
      intro hl
      rw [List.pairwise_cons] at hl
      rw [List.flatMap_cons]
      apply List.pairwise_append.mpr
      refine ⟨subtract_sweep_pairwise _ s.1 s.2 hpos_sorted, ihl hl.2, ?_⟩
      intro o ho p hp
      rw [List.mem_flatMap] at hp
      obtain ⟨t, ht, hpt⟩ := hp
      have hbo := subtract_sweep_bounds _ s.1 s.2 o ho
      have hbp := subtract_sweep_bounds _ t.1 t.2 p hpt
      have hst := hl.1 t ht
      omega
  cases base with
  | nil => unfold segment_subtract; exact List.Pairwise.nil
  | cons s0 rest =>
    unfold segment_subtract
    simp only []
    exact (hflat _ hbase).filter _

/-- C6: for sorted, non-overlapping base segments and blocking intervals
(end > start, the spec's TimeInterval invariant), _segment_subtract returns
only segments with end > start, sorted and non-overlapping, whose union is
exactly the base minus the blocks — equivalently, the union of the result
together with the blocks clipped to the base is exactly the union of the
base (no gaps, no overlaps). -/
theorem C6_segment_subtract_correct :
    ∀ (base blocks : List (Int × Int)),
      base.Pairwise (fun a b => a.2 ≤ b.1) →
      (∀ b ∈ blocks, b.1 < b.2) →
      (∀ o ∈ segment_subtract base blocks, o.1 < o.2) ∧
      (segment_subtract base blocks).Pairwise (fun o p => o.2 ≤ p.1) ∧
      (∀ x : Int, (∃ o ∈ segment_subtract base blocks, o.1 ≤ x ∧ x < o.2) ↔
        ((∃ s ∈ base, s.1 ≤ x ∧ x < s.2) ∧ ¬ ∃ b ∈ blocks, b.1 ≤ x ∧ x < b.2)) ∧
      (∀ x : Int, ((∃ o ∈ segment_subtract base blocks, o.1 ≤ x ∧ x < o.2) ∨
          ((∃ b ∈ blocks, b.1 ≤ x ∧ x < b.2) ∧ (∃ s ∈ base, s.1 ≤ x ∧ x < s.2))) ↔
        (∃ s ∈ base, s.1 ≤ x ∧ x < s.2)) := by
  intro base blocks hbase hblocks
  refine ⟨?_, segment_subtract_pairwise base blocks hbase hblocks,
    fun x => segment_subtract_mem base blocks x, ?_⟩
  · intro o ho
    cases base with
    | nil => unfold segment_subtract at ho; exact absurd ho (List.not_mem_nil o)
    | cons s0 rest =>
      unfold segment_subtract at ho
      simp only [] at ho
      rw [List.mem_filter, decide_eq_true_eq] at ho
      exact ho.2
  · intro x
    have hmem := segment_subtract_mem base blocks x
    constructor
    · rintro (h | ⟨-, hs⟩)
      · exact (hmem.mp h).1
      · exact hs
    · intro hs
      by_cases hb : ∃ b ∈ blocks, b.1 ≤ x ∧ x < b.2
      · exact Or.inr ⟨hb, hs⟩
      · exact Or.inl (hmem.mpr ⟨hs, hb⟩)

/-- Witness for C6: one base segment [0, 100) with one block [10, 20). -/
theorem C6_witness :
    segment_subtract [((0 : Int), (100 : Int))] [((10 : Int), (20 : Int))] =
      [(0, 10), (20, 100)] ∧
    (segment_subtract [((0 : Int), (100 : Int))] [((10 : Int), (20 : Int))]).Pairwise
      (fun o p => o.2 ≤ p.1) :=
  ⟨by decide,
    (C6_segment_subtract_correct [((0 : Int), (100 : Int))] [((10 : Int), (20 : Int))]
      (List.pairwise_singleton _ _) (by decide)).2.1⟩

/-! ### C7 / C3: the booking transaction core -/

/-- create_booking_core either rejects leaving the database unchanged or
commits exactly the payload row under the next primary key. -/
theorem create_booking_core_cases (db : DB) (p : BayBookingCreate) :
    (∃ e, create_booking_core db p = (db, .error e)) ∨
    create_booking_core db p =
      ({ db with
          bookings := db.bookings ++ [booking_from_payload p db.next_id]
          next_id := db.next_id + 1 },
        .ok (booking_from_payload p db.next_id)) := by
  unfold create_booking_core
  split
  · exact Or.inl ⟨_, rfl⟩
  · split
    · exact Or.inl ⟨_, rfl⟩
    · split
      · exact Or.inl ⟨_, rfl⟩
      · exact Or.inr rfl

/-- auto_schedule either rejects leaving the database unchanged, or passes
every check (including the chain checks) and delegates to
create_booking_core on the assembled payload. -/
theorem auto_schedule_cases (db : DB) (payload : AutoScheduleRequest) :
    (∃ e, auto_schedule db payload = (db, .error e)) ∨
    (∃ car,
      resolve_car db payload = .ok car ∧
      chain_checks payload car
        (if str_truthy payload.chain_token then
          chain_master_for db (payload.chain_token.getD "") else none) = .ok () ∧
      auto_schedule db payload =
        create_booking_core db
          (build_auto_payload payload car
            (if str_truthy payload.chain_token then
              chain_master_for db (payload.chain_token.getD "") else none)
            payload.start_at payload.end_at)) := by
  unfold auto_schedule
  split
  · exact Or.inl ⟨_, rfl⟩
  · simp only []
    split
    · exact Or.inl ⟨_, rfl⟩
    · split
      · exact Or.inl ⟨_, rfl⟩
      · split
        next e heq => exact Or.inl ⟨_, rfl⟩
        next car heq =>
          split
          next e2 h2 => exact Or.inl ⟨_, rfl⟩
          next u h3 =>
            split
            · exact Or.inl ⟨_, rfl⟩
            · split
              next e4 h4 => exact Or.inl ⟨_, rfl⟩
              next u2 h5 =>
                split
                · exact Or.inl ⟨_, rfl⟩
                · split
                  · exact Or.inl ⟨_, rfl⟩
                  · split
                    · exact Or.inl ⟨_, rfl⟩
                    · split
                      next e6 h6 => exact Or.inl ⟨_, rfl⟩
                      next u3 h7 => exact Or.inr ⟨car, heq, h7, rfl⟩

/-- C7: whenever booking creation (create, or AutoSchedule that delegates to
_create_booking_core) rejects a request — in particular with a 409 resource
conflict — no booking row is persisted: the conflict checks run before the
write and every error path returns the database exactly as it was. -/
theorem C7_conflict_rejection_preserves_state :
    ∀ (db : DB) (p : BayBookingCreate) (req : AutoScheduleRequest) (e e2 : HErr),
      ((create_booking_core db p).2 = .error e → (create_booking_core db p).1 = db) ∧
      ((auto_schedule db req).2 = .error e2 → (auto_schedule db req).1 = db) := by
  intro db p req e e2
  constructor
  · intro h
    rcases create_booking_core_cases db p with ⟨e3, he⟩ | he
    · rw [he]
    · rw [he] at h ⊢
      simp at h
  · intro h
    rcases auto_schedule_cases db req with ⟨e3, he⟩ | ⟨car, -, -, he⟩
    · rw [he]
    · rw [he] at h ⊢
      rcases create_booking_core_cases db
          (build_auto_payload req car
            (if str_truthy req.chain_token then
              chain_master_for db (req.chain_token.getD "") else none)
            req.start_at req.end_at) with ⟨e4, hc⟩ | hc
      · rw [hc]
      · rw [hc] at h
        simp at h

/-- Conflicting auto-schedule request for the C7 witness: bay 1 already holds
10:00–11:00 and the request asks 10:30–11:30 in the same bay. -/
def req_conflict : AutoScheduleRequest :=
  { workshop_id := 1, bay_id := 1, title := "c", start_at := 630, end_at := 690 }

/-- Witness for C7: the conflicting create and auto-schedule both return 409
and leave the database untouched. -/
theorem C7_witness :
    (create_booking_core db_one_booking payload_conflict).2 = .error ⟨409⟩ ∧
    (create_booking_core db_one_booking payload_conflict).1 = db_one_booking ∧
    (auto_schedule db_one_booking req_conflict).2 = .error ⟨409⟩ ∧
    (auto_schedule db_one_booking req_conflict).1 = db_one_booking :=
  ⟨by rfl,
    (C7_conflict_rejection_preserves_state db_one_booking payload_conflict req_conflict
      ⟨409⟩ ⟨409⟩).1 (by rfl),
    by rfl,
    (C7_conflict_rejection_preserves_state db_one_booking payload_conflict req_conflict
      ⟨409⟩ ⟨409⟩).2 (by rfl)⟩

/-- C3: when an AutoSchedule request carries a chain token whose master
already exists, a successful create strips every price field
(price_net_ore, price_gross_ore, final_price_ore, price_note,
price_is_custom) even when the request supplied them, inherits the master's
car and service item when the request omits them, and a request whose
workshop, car or service item conflicts with the master's is rejected with
the database unchanged. -/
theorem C3_chain_master_constraints :
    ∀ (db : DB) (req : AutoScheduleRequest) (tok : String) (m : BayBooking),
      req.chain_token = some tok → tok ≠ "" →
      chain_master_for db tok = some m →
      (∀ db2 bk, auto_schedule db req = (db2, .ok bk) →
        bk.price_net_ore = none ∧ bk.price_gross_ore = none ∧
        bk.final_price_ore = none ∧ bk.price_note = none ∧
        bk.price_is_custom = none ∧
        (req.car_id = none → req.registration_number = none →
          ∀ c, m.car_id = some c → c ≠ 0 → bk.car_id = some c) ∧
        (req.service_item_id = none →
          ∀ s2, m.service_item_id = some s2 → s2 ≠ 0 →
            bk.service_item_id = some s2)) ∧
      (m.workshop_id ≠ req.workshop_id →
        (∃ e, (auto_schedule db req).2 = .error e) ∧ (auto_schedule db req).1 = db) ∧
      (∀ c2, resolve_car db req = .ok (some c2) →
        m.car_id ≠ none → m.car_id ≠ some 0 → m.car_id ≠ some c2.id →
        (∃ e, (auto_schedule db req).2 = .error e) ∧ (auto_schedule db req).1 = db) ∧
      (m.service_item_id ≠ none → m.service_item_id ≠ some 0 →
        req.service_item_id ≠ none → req.service_item_id ≠ some 0 →
        m.service_item_id ≠ req.service_item_id →
        (∃ e, (auto_schedule db req).2 = .error e) ∧ (auto_schedule db req).1 = db) := by
  intro db req tok m htok htok_ne hmaster
  have hstr : str_truthy req.chain_token = true := by
    rw [htok]
    simpa [str_truthy] using htok_ne
  have hmexpr : (if str_truthy req.chain_token then
      chain_master_for db (req.chain_token.getD "") else none) = some m := by
    rw [if_pos hstr, htok]
    exact hmaster
  refine ⟨?_, ?_, ?_, ?_⟩
  · intro db2 bk h
    rcases auto_schedule_cases db req with ⟨e3, he⟩ | ⟨car, hcar, hcc, he⟩
    · rw [he] at h
      simp at h
    · rw [hmexpr] at he
      rw [he] at h
      rcases create_booking_core_cases db
          (build_auto_payload req car (some m) req.start_at req.end_at) with
        ⟨e4, hc⟩ | hc
      · rw [hc] at h
        simp at h
      · rw [hc] at h
        have hbk : bk = booking_from_payload
            (build_auto_payload req car (some m) req.start_at req.end_at) db.next_id := by
          have := congrArg Prod.snd h
          simpa using this.symm
        subst hbk
        refine ⟨?_, ?_, ?_, ?_, ?_, ?_, ?_⟩
        · simp [booking_from_payload, build_auto_payload, hstr]
        · simp [booking_from_payload, build_auto_payload, hstr]
        · simp [booking_from_payload, build_auto_payload]
        · simp [booking_from_payload, build_auto_payload, hstr]
        · simp [booking_from_payload, build_auto_payload, hstr]
        · intro hcar_none hreg_none c hmc hc0
          have hresolved : resolve_car db req = .ok none := by
            unfold resolve_car
            rw [hcar_none, hreg_none]
            rfl
          rw [hresolved] at hcar
          have hcar_eq : car = none := by
            injection hcar with h5
            exact h5.symm
          subst hcar_eq
          simp [booking_from_payload, build_auto_payload, hstr, hcar_none, hmc,
            nat_truthy, hc0]
        · intro hsi_none s2 hms hs0
          simp [booking_from_payload, build_auto_payload, hstr, hsi_none, hms,
            nat_truthy, hs0]
  · intro hws
    rcases auto_schedule_cases db req with ⟨e3, he⟩ | ⟨car, hcar, hcc, he⟩
    · rw [he]
      exact ⟨⟨e3, rfl⟩, rfl⟩
    · exfalso
      rw [hmexpr] at hcc
      have hbne : (m.workshop_id != req.workshop_id) = true := by simpa using hws
      simp [chain_checks, hbne] at hcc
  · intro c2 hres hm1 hm2 hm3
    rcases auto_schedule_cases db req with ⟨e3, he⟩ | ⟨car, hcar, hcc, he⟩
    · rw [he]
      exact ⟨⟨e3, rfl⟩, rfl⟩
    · exfalso
      rw [hres] at hcar
      have hcar_eq : car = some c2 := by
        injection hcar with h5
        exact h5.symm
      subst hcar_eq
      rw [hmexpr] at hcc
      have hmt : nat_truthy m.car_id = true := by
        cases hmc : m.car_id with
        | none => exact absurd hmc hm1
        | some v =>
          have hv : v ≠ 0 := by
            intro hv
            exact hm2 (by rw [hmc, hv])
          simp [nat_truthy, hv]
      have hbne2 : (m.car_id != some c2.id) = true := by simpa using hm3
      by_cases h1 : (m.workshop_id != req.workshop_id) = true
      · simp [chain_checks, h1] at hcc
      · rw [Bool.not_eq_true] at h1
        simp [chain_checks, h1, hmt, hbne2] at hcc
  · intro hs1 hs2 hs3 hs4 hs5
    rcases auto_schedule_cases db req with ⟨e3, he⟩ | ⟨car, hcar, hcc, he⟩
    · rw [he]
      exact ⟨⟨e3, rfl⟩, rfl⟩
    · exfalso
      rw [hmexpr] at hcc
      have hmt : nat_truthy m.service_item_id = true := by
        cases hmc : m.service_item_id with
        | none => exact absurd hmc hs1
        | some v =>
          have hv : v ≠ 0 := by
            intro hv
            exact hs2 (by rw [hmc, hv])
          simp [nat_truthy, hv]
      have hpt : nat_truthy req.service_item_id = true := by
        cases hpc : req.service_item_id with
        | none => exact absurd hpc hs3
        | some v =>
          have hv : v ≠ 0 := by
            intro hv
            exact hs4 (by rw [hpc, hv])
          simp [nat_truthy, hv]
      have hbne3 : (m.service_item_id != req.service_item_id) = true := by
        simpa using hs5
      by_cases h1 : (m.workshop_id != req.workshop_id) = true
      · simp [chain_checks, h1] at hcc
      · rw [Bool.not_eq_true] at h1
        cases car with
        | none => simp [chain_checks, h1, hmt, hpt, hbne3] at hcc
        | some c =>
          by_cases hb2 : (nat_truthy m.car_id && (m.car_id != some c.id)) = true
          · simp [chain_checks, h1, hb2] at hcc
          · rw [Bool.not_eq_true] at hb2
            simp [chain_checks, h1, hb2, hmt, hpt, hbne3] at hcc

/-- The row the second chain part persists in the witness scenario. -/
def chain_part2_booking : BayBooking :=
  booking_from_payload
    (build_auto_payload req_chain none (some master_X) 1200 1260) 2

/-- Witness for C3: against db_chain (master with price 50000 and service
item 1), the request supplying price_net_ore = 20000 succeeds with every
price field stripped and the master's service item inherited. -/
theorem C3_witness :
    (auto_schedule db_chain req_chain).2 = .ok chain_part2_booking ∧
    chain_part2_booking.price_net_ore = none ∧
    chain_part2_booking.price_gross_ore = none ∧
    chain_part2_booking.final_price_ore = none ∧
    chain_part2_booking.price_note = none ∧
    chain_part2_booking.price_is_custom = none ∧
    chain_part2_booking.service_item_id = some 1 := by
  have h := (C3_chain_master_constraints db_chain req_chain "X" master_X rfl
    (by decide) (by rfl)).1 (auto_schedule db_chain req_chain).1 chain_part2_booking
    (by rfl)
  exact ⟨by rfl, h.1, h.2.1, h.2.2.1, h.2.2.2.1, h.2.2.2.2.1,
    h.2.2.2.2.2.2 rfl 1 rfl (by decide)⟩

/-! ### C8: determinism of the availability planner -/

/-- C8: the planner is a pure function of (shuffle functions, database
snapshot, request, clock) — two runs with identical inputs return identical
proposal lists; the RANDOM ordering is exactly the seeded shuffle of the
candidate list, depending only on the slot seed and the candidates (not on
the database or the window); and the slot seed (epoch seconds XOR workshop
id) distinguishes distinct slot times for a fixed workshop. -/
theorem C8_deterministic_seeded :
    (∀ (su : Nat → List User → List User)
       (se : Nat → List (User × Int × List String) → List (User × Int × List String))
       (db : DB) (payload : AvailabilityRequest) (now : Instant),
      availability_auto su se db payload now = availability_auto su se db payload now) ∧
    (∀ (su : Nat → List User → List User) (db db2 : DB) (users : List User)
       (seed : Nat) (a b a2 b2 : Instant),
      order_users_for_slot su db users .random seed a b =
        order_users_for_slot su db2 users .random seed a2 b2) ∧
    (∀ (t t2 : Int) (w : Nat), 0 ≤ t → 0 ≤ t2 →
      slot_seed_of t w = slot_seed_of t2 w → t = t2) := by
  refine ⟨fun _ _ _ _ _ => rfl, fun _ _ _ _ _ _ _ _ _ => rfl, ?_⟩
  intro t t2 w h1 h2 h
  unfold slot_seed_of at h
  have h3 : (t * 60).toNat = (t2 * 60).toNat := by
    have h4 := congrArg (fun x => x ^^^ w) h
    simpa [Nat.xor_assoc, Nat.xor_self, Nat.xor_zero] using h4
  omega

/-- Witness for C8: the seed at time 5 matches itself, so the times agree. -/
theorem C8_witness : (5 : Int) = 5 :=
  C8_deterministic_seeded.2.2 5 5 1 (by decide) (by decide) rfl

/-! ### C4 / C5: invariants of the availability planner -/

/-- The dedupe key of a returned proposal. -/
def proposal_key (p : AvailabilityProposal) : Nat × Nat × Int × Int :=
  dedupe_key p.bay_id p.assigned_user_id p.start_at p.end_at

/-- The shape of a legal fragmented proposal for a requested duration: 1 to
MAX_FRAGMENT_PARTS parts, each at least MIN_FRAGMENT_MINUTES long, durations
summing exactly to the request, all parts inside a MAX_FRAGMENT_DAYS-day
window anchored at the candidate start (which is at or before the proposal
start). -/
def FragOk (dur : Int) (p : AvailabilityProposal) : Prop :=
  ∀ parts, p.parts = some parts →
    1 ≤ parts.length ∧ parts.length ≤ MAX_FRAGMENT_PARTS ∧
    (∀ q ∈ parts, MIN_FRAGMENT_MINUTES ≤ q.end_at - q.start_at) ∧
    (parts.map fun q => q.end_at - q.start_at).sum = dur ∧
    ∃ t0, t0 ≤ p.start_at ∧ ∀ q ∈ parts,
      t0 ≤ q.start_at ∧ q.end_at ≤ t0 + MAX_FRAGMENT_DAYS * 1440

/-- Loop invariant of the scan: proposal keys are distinct and recorded in
seen, every proposal is a legal fragment shape, and with fragmentation off no
proposal has parts. -/
def GoodState (allow_frag : Bool) (dur : Int)
    (props : List AvailabilityProposal) (seen : List (Nat × Nat × Int × Int)) : Prop :=
  (props.map proposal_key).Nodup ∧
  (∀ p ∈ props, proposal_key p ∈ seen) ∧
  (∀ p ∈ props, FragOk dur p) ∧
  (allow_frag = false → ∀ p ∈ props, p.parts = none)

/-- Appending a proposal whose key is new preserves the invariant. -/
theorem GoodState.append {af : Bool} {dur : Int}
    {props : List AvailabilityProposal} {seen : List (Nat × Nat × Int × Int)}
    (h : GoodState af dur props seen) (p : AvailabilityProposal)
    (hkey : proposal_key p ∉ seen) (hfrag : FragOk dur p)
    (hflag : af = false → p.parts = none) :
    GoodState af dur (props ++ [p]) (seen ++ [proposal_key p]) := by
  obtain ⟨h1, h2, h3, h4⟩ := h
  refine ⟨?_, ?_, ?_, ?_⟩
  · rw [List.map_append, List.nodup_append]
    refine ⟨h1, List.nodup_singleton _, ?_⟩
    intro k hk
    simp only [List.map_cons, List.map_nil, List.mem_singleton]
    intro hkp
    subst hkp
    obtain ⟨q, hq, hqk⟩ := List.mem_map.mp hk
    exact hkey (hqk ▸ h2 q hq)
  · intro q hq
    rcases List.mem_append.mp hq with hq | hq
    · exact List.mem_append.mpr (Or.inl (h2 q hq))
    · rw [List.mem_singleton] at hq
      subst hq
      exact List.mem_append.mpr (Or.inr (List.mem_singleton.mpr rfl))
  · intro q hq
    rcases List.mem_append.mp hq with hq | hq
    · exact h3 q hq
    · rw [List.mem_singleton] at hq
      subst hq
      exact hfrag
  · intro haf q hq
    rcases List.mem_append.mp hq with hq | hq
    · exact h4 haf q hq
    · rw [List.mem_singleton] at hq
      subst hq
      exact hflag haf

/-- The emit loop of the contiguous branch preserves the invariant. -/
theorem emit_contiguous_good (num : Int) (bay : WorkshopBay) (cur ce : Instant)
    (disq : List MechanicCandidate) (af : Bool) (dur : Int) :
    ∀ (elig : List (User × Int × List String)) props seen,
      GoodState af dur props seen →
      GoodState af dur (emit_contiguous num bay cur ce disq elig props seen).1
        (emit_contiguous num bay cur ce disq elig props seen).2 := by
  intro elig
  induction elig with
  | nil => intro props seen h; exact h
  | cons x rest ih =>
    intro props seen h
    obtain ⟨u, sc, rs⟩ := x
    unfold emit_contiguous
    simp only []
    split
    case isTrue hkey => exact ih props seen h
    case isFalse hkey =>
      replace hkey : dedupe_key bay.id (some u.id) cur ce ∉ seen := by
        simpa using hkey
      have hnew : GoodState af dur
          (props ++ [contiguous_proposal bay cur ce u disq])
          (seen ++ [dedupe_key bay.id (some u.id) cur ce]) :=
        h.append (contiguous_proposal bay cur ce u disq) hkey
          (fun parts hp => by simp [contiguous_proposal] at hp)
          (fun _ => rfl)
      split
      · exact hnew
      · exact ih _ _ hnew

/-- The greedy accumulator keeps remaining + taken total constant. -/
theorem greedy_parts_sum :
    ∀ (segs : List (Int × Int)) (rem : Int) (parts : List (Int × Int)),
      (greedy_parts rem parts segs).1 +
        ((greedy_parts rem parts segs).2.map fun q => q.2 - q.1).sum =
      rem + (parts.map fun q => q.2 - q.1).sum := by
  intro segs
  induction segs with
  | nil => intro rem parts; rfl
  | cons s rest ih =>
    intro rem parts
    obtain ⟨s1, s2⟩ := s
    unfold greedy_parts
    simp only []
    split
    · rfl
    · split
      case isTrue htake =>
        rw [ih]
        simp [List.sum_append]
      case isFalse htake => exact ih rem parts

/-- The remaining duration never goes negative. -/
theorem greedy_parts_nonneg :
    ∀ (segs : List (Int × Int)) (rem : Int) (parts : List (Int × Int)),
      0 ≤ rem → 0 ≤ (greedy_parts rem parts segs).1 := by
  intro segs
  induction segs with
  | nil => intro rem parts h; exact h
  | cons s rest ih =>
    intro rem parts h
    obtain ⟨s1, s2⟩ := s
    unfold greedy_parts
    simp only []
    split
    · exact h
    · split
      case isTrue htake =>
        refine ih _ _ ?_
        have := min_le_left rem (s2 - s1)
        omega
      case isFalse htake => exact ih rem parts h

/-- Every part the greedy accumulator adds starts at a candidate segment's
start, ends within it, and is at least the minimum chunk long. -/
theorem greedy_parts_mem :
    ∀ (segs : List (Int × Int)) (rem : Int) (parts : List (Int × Int)) (q : Int × Int),
      q ∈ (greedy_parts rem parts segs).2 →
      q ∈ parts ∨ ∃ seg ∈ segs, q.1 = seg.1 ∧ q.2 ≤ seg.2 ∧
        MIN_FRAGMENT_MINUTES ≤ q.2 - q.1 := by
  intro segs
  induction segs with
  | nil => intro rem parts q hq; exact Or.inl hq
  | cons s rest ih =>
    intro rem parts q hq
    obtain ⟨s1, s2⟩ := s
    unfold greedy_parts at hq
    simp only [] at hq
    split at hq
    · exact Or.inl hq
    · split at hq
      case isTrue htake =>
        rcases ih _ _ q hq with hin | ⟨seg, hseg, hp⟩
        · rcases List.mem_append.mp hin with hin | hin
          · exact Or.inl hin
          · rw [List.mem_singleton] at hin
            subst hin
            refine Or.inr ⟨(s1, s2), List.mem_cons_self _ _, rfl, ?_, ?_⟩
            · have := min_le_right rem (s2 - s1)
              simp only
              omega
            · simpa using htake
        · exact Or.inr ⟨seg, List.mem_cons_of_mem _ hseg, hp⟩
      case isFalse htake =>
        rcases ih _ _ q hq with hin | ⟨seg, hseg, hp⟩
        · exact Or.inl hin
        · exact Or.inr ⟨seg, List.mem_cons_of_mem _ hseg, hp⟩

/-- Every segment of a two-pointer intersection lies inside some segment of
the left list. -/
theorem intersect_aux_subset_left :
    ∀ (fuel : Nat) (a b : List (Int × Int)) (o : Int × Int),
      o ∈ intersect_aux fuel a b → ∃ x ∈ a, x.1 ≤ o.1 ∧ o.2 ≤ x.2 := by
  intro fuel
  induction fuel with
  | zero => intro a b o ho; exact absurd ho (List.not_mem_nil o)
  | succ fuel ih =>
    intro a b o ho
    match a, b with
    | [], _ =>
      simp only [intersect_aux] at ho
      exact absurd ho (List.not_mem_nil o)
    | _ :: _, [] =>
      simp only [intersect_aux] at ho
      exact absurd ho (List.not_mem_nil o)
    | x :: as0, y :: bs0 =>
      unfold intersect_aux at ho
      simp only [] at ho
      have hhead : o ∈ (if min x.2 y.2 > max x.1 y.1 then
          [(max x.1 y.1, min x.2 y.2)] else []) →
          ∃ z ∈ x :: as0, z.1 ≤ o.1 ∧ o.2 ≤ z.2 := by
        intro hin
        split at hin
        · rw [List.mem_singleton] at hin
          subst hin
          exact ⟨x, List.mem_cons_self _ _,
            le_max_left _ _, min_le_left _ _⟩
        · exact absurd hin (List.not_mem_nil o)
      split at ho
      · rcases List.mem_append.mp ho with hin | hin
        · exact hhead hin
        · obtain ⟨z, hz, hzo⟩ := ih as0 (y :: bs0) o hin
          exact ⟨z, List.mem_cons_of_mem _ hz, hzo⟩
      · rcases List.mem_append.mp ho with hin | hin
        · exact hhead hin
        · exact ih (x :: as0) bs0 o hin

/-- The free-segment sweep stays inside [pos, e) when every blocker starts at
or before e. -/
theorem free_sweep_bounds :
    ∀ (blks : List (Int × Int)) (pos e : Int),
      (∀ blk ∈ blks, blk.1 ≤ e) →
      ∀ o ∈ free_sweep pos e blks, pos ≤ o.1 ∧ o.2 ≤ e := by
  intro blks
  induction blks with
  | nil =>
    intro pos e _ o ho
    unfold free_sweep at ho
    split at ho
    · rw [List.mem_singleton] at ho
      subst ho
      exact ⟨le_refl _, le_refl _⟩
    · exact absurd ho (List.not_mem_nil o)
  | cons blk rest ih =>
    intro pos e hb o ho
    obtain ⟨bs, be⟩ := blk
    unfold free_sweep at ho
    simp only [] at ho
    obtain ⟨hm1, hm2, hm3⟩ := max_facts pos be
    rcases List.mem_append.mp ho with hin | hin
    · split at hin
      case isTrue hpre =>
        rw [List.mem_singleton] at hin
        subst hin
        exact ⟨le_refl _, hb (bs, be) (List.mem_cons_self _ _)⟩
      case isFalse hpre => exact absurd hin (List.not_mem_nil o)
    · have := ih (max pos be) e
        (fun c hc => hb c (List.mem_cons_of_mem _ hc)) o hin
      constructor
      · omega
      · exact this.2

/-- The bay free segments over a single base segment stay inside it when
before-buffers are non-negative (the spec's BufferedInterval invariant). -/
theorem bay_free_segments_bounds (db : DB) (bay_id : Nat) (s e : Int) (inc : Bool)
    (hbuf : ∀ b ∈ db.bookings, 0 ≤ b.buffer_before_min) (hse : s ≤ e) :
    ∀ o ∈ bay_free_segments db bay_id [(s, e)] inc, s ≤ o.1 ∧ o.2 ≤ e := by
  intro o ho
  unfold bay_free_segments at ho
  simp only [] at ho
  rw [List.mem_filter] at ho
  obtain ⟨hoflat, -⟩ := ho
  rw [List.flatMap_cons, List.flatMap_nil, List.append_nil] at hoflat
  simp only [] at hoflat
  refine free_sweep_bounds _ s e ?_ o hoflat
  intro blk hblk
  rw [mem_sort_pairs, List.mem_append] at hblk
  rcases hblk with hblk | hblk
  · obtain ⟨b, hb, hblk⟩ := List.mem_map.mp hblk
    rw [List.mem_filter, Bool.and_eq_true, Bool.and_eq_true, decide_eq_true_eq,
      decide_eq_true_eq] at hb
    have hb0 := hbuf b hb.1
    subst hblk
    simp only
    have := hb.2.1
    omega
  · obtain ⟨c, hc, hblk⟩ := List.mem_map.mp hblk
    rw [List.mem_filter, Bool.and_eq_true, Bool.and_eq_true, decide_eq_true_eq,
      decide_eq_true_eq] at hc
    subst hblk
    simp only
    have := hc.2.1
    omega

/-- Every accepted fragment cover in the fragmented branch has a legal
shape: 1..MAX parts, each at least the minimum chunk, inside
[cur, end_limit], durations summing exactly to the request. -/
theorem frag_user_results_shape (db : DB) (tz cur end_limit : Int)
    (dur : Int) (bay_free : List (Int × Int))
    (hbf : ∀ seg ∈ bay_free, cur ≤ seg.1 ∧ seg.2 ≤ end_limit) :
    ∀ (users : List User) r,
      r ∈ (frag_user_results db tz cur end_limit dur bay_free users).1 →
      1 ≤ r.2.length ∧ r.2.length ≤ MAX_FRAGMENT_PARTS ∧
      (∀ q ∈ r.2, MIN_FRAGMENT_MINUTES ≤ q.2 - q.1 ∧ cur ≤ q.1 ∧ q.2 ≤ end_limit) ∧
      (0 ≤ dur → (r.2.map fun q => q.2 - q.1).sum = dur) := by
  intro users
  induction users with
  | nil => intro r hr; exact absurd hr (List.not_mem_nil r)
  | cons u rest ih =>
    intro r hr
    unfold frag_user_results at hr
    simp only [] at hr
    generalize huf : user_free_segments db u cur end_limit tz = ufree at hr
    generalize hcs : (intersect_segments bay_free ufree).filter
      (fun w => decide (w.2 - w.1 ≥ MIN_FRAGMENT_MINUTES)) = cs at hr
    split at hr
    · exact ih r hr
    · split at hr
      · exact ih r hr
      · split at hr
        case isTrue hacc =>
          rcases List.mem_cons.mp hr with rfl | hr
          · rw [Bool.and_eq_true, Bool.and_eq_true, decide_eq_true_eq,
              decide_eq_true_eq, decide_eq_true_eq] at hacc
            obtain ⟨⟨hrem, hlen1⟩, hlen3⟩ := hacc
            refine ⟨hlen1, hlen3, ?_, ?_⟩
            · intro q hq
              rcases greedy_parts_mem cs dur [] q hq with hin | ⟨seg, hseg, hq1, hq2, hq3⟩
              · exact absurd hin (List.not_mem_nil q)
              · rw [← hcs, List.mem_filter, decide_eq_true_eq] at hseg
                obtain ⟨hseg, hseg30⟩ := hseg
                obtain ⟨x, hx, hx1, hx2⟩ :=
                  intersect_aux_subset_left _ _ _ seg hseg
                have hxb := hbf x hx
                refine ⟨hq3, ?_, ?_⟩ <;> omega
            · intro hdur
              have hsum := greedy_parts_sum cs dur []
              have hnn := greedy_parts_nonneg cs dur [] hdur
              simp only [List.map_nil, List.sum_nil, add_zero] at hsum
              show ((greedy_parts dur [] cs).2.map fun q => q.2 - q.1).sum = dur
              omega
          · exact ih r hr
        case isFalse hacc => exact ih r hr

/-- foldl min stays at or above a lower bound of the seed and elements. -/
theorem foldl_min_bound {c : Int} :
    ∀ (l : List Int) (x : Int), c ≤ x → (∀ y ∈ l, c ≤ y) → c ≤ l.foldl min x := by
  intro l
  induction l with
  | nil => intro x hx _; exact hx
  | cons y ys ih =>
    intro x hx hl
    simp only [List.foldl_cons]
    exact ih (min x y) (le_min hx (hl y (List.mem_cons_self _ _)))
      fun z hz => hl z (List.mem_cons_of_mem _ hz)

/-- The fragmented proposal assembled from legal covers is itself legal. -/
theorem fragmented_proposal_ok (db : DB) (tz : Int) (bay : WorkshopBay)
    (rc : Bool) (mc : Int) (pref : Option Nat) (cur end_limit dur : Int)
    (rs : List (User × List (Int × Int))) (dq : List (Nat × List String))
    (hne : rs ≠ [])
    (hshape : ∀ r ∈ rs, 1 ≤ r.2.length ∧ r.2.length ≤ MAX_FRAGMENT_PARTS ∧
      (∀ q ∈ r.2, MIN_FRAGMENT_MINUTES ≤ q.2 - q.1 ∧ cur ≤ q.1 ∧ q.2 ≤ end_limit) ∧
      (0 ≤ dur → (r.2.map fun q => q.2 - q.1).sum = dur))
    (hdur : 0 ≤ dur) (hel : end_limit ≤ cur + MAX_FRAGMENT_DAYS * 1440) :
    FragOk dur (fragmented_proposal db tz bay rc mc pref rs dq) := by
  intro parts hp
  cases rs with
  | nil => exact absurd rfl hne
  | cons r0 rest0 =>
    have h0 := hshape r0 (List.mem_cons_self _ _)
    have hp_eq : parts = (r0.2.map fun w => AvailabilityPart.mk w.1 w.2) := by
      simpa [fragmented_proposal] using hp.symm
    subst hp_eq
    have hstart : (fragmented_proposal db tz bay rc mc pref (r0 :: rest0) dq).start_at =
        frag_first_start (r0 :: rest0) := rfl
    refine ⟨?_, ?_, ?_, ?_, ?_⟩
    · rw [List.length_map]
      exact h0.1
    · rw [List.length_map]
      exact h0.2.1
    · intro q hq
      obtain ⟨w, hw, hwq⟩ := List.mem_map.mp hq
      subst hwq
      exact (h0.2.2.1 w hw).1
    · rw [List.map_map]
      exact h0.2.2.2 hdur
    · refine ⟨cur, ?_, ?_⟩
      · rw [hstart]
        unfold frag_first_start
        simp only [List.map_cons]
        apply foldl_min_bound
        · cases hr02 : r0.2 with
          | nil =>
            have := h0.1
            rw [hr02] at this
            simp at this
          | cons w ws =>
            have := (h0.2.2.1 w (by rw [hr02]; exact List.mem_cons_self _ _)).2.1
            simpa [hr02] using this
        · intro y hy
          obtain ⟨r, hr, hry⟩ := List.mem_map.mp hy
          have hrs := hshape r (List.mem_cons_of_mem _ hr)
          cases hr2 : r.2 with
          | nil =>
            have := hrs.1
            rw [hr2] at this
            simp at this
          | cons w ws =>
            have := (hrs.2.2.1 w (by rw [hr2]; exact List.mem_cons_self _ _)).2.1
            rw [← hry, hr2]
            simpa using this
      · intro q hq
        obtain ⟨w, hw, hwq⟩ := List.mem_map.mp hq
        subst hwq
        have h9 := h0.2.2.1 w hw
        refine ⟨h9.2.1, show w.2 ≤ _ from ?_⟩
        have h8 := h9.2.2
        omega

/-- A start returned by the fine search satisfies the loop guard, so it fits
the requested duration before latest_end. -/
theorem next_any_bay_cover_start_le (db : DB) (bays : List WorkshopBay)
    (users : List User) (duration_min tz step_min : Int) (latest_end : Int)
    (inc : Bool) :
    ∀ (fuel : Nat) (t r : Int),
      next_any_bay_cover_start db bays users duration_min tz step_min latest_end
        inc fuel t = some r →
      r + duration_min ≤ latest_end := by
  intro fuel
  induction fuel with
  | zero => intro t r hr; exact Option.noConfusion hr
  | succ fuel ih =>
    intro t r hr
    unfold next_any_bay_cover_start at hr
    simp only [] at hr
    split at hr
    case isTrue hle =>
      split at hr
      case isTrue hcov =>
        injection hr with hr
        rw [← hr]
        exact hle
      case isFalse hcov => exact ih _ r hr
    case isFalse hle => exact Option.noConfusion hr

/-- The invariant restricted to the returned proposal list. -/
def GoodProps (af : Bool) (dur : Int) (props : List AvailabilityProposal) : Prop :=
  (props.map proposal_key).Nodup ∧
  (∀ p ∈ props, FragOk dur p) ∧
  (af = false → ∀ p ∈ props, p.parts = none)

/-- A good scan state yields a good proposal list. -/
theorem GoodState.goodProps {af : Bool} {dur : Int}
    {props : List AvailabilityProposal} {seen : List (Nat × Nat × Int × Int)}
    (h : GoodState af dur props seen) : GoodProps af dur props :=
  ⟨h.1, h.2.2.1, h.2.2.2⟩

/-- The empty scan state is good. -/
theorem GoodState.nil (af : Bool) (dur : Int) : GoodState af dur [] [] := by
  refine ⟨by simp, ?_, ?_, ?_⟩
  · intro p hp; exact absurd hp (List.not_mem_nil p)
  · intro p hp; exact absurd hp (List.not_mem_nil p)
  · intro _ p hp; exact absurd hp (List.not_mem_nil p)

/-- The per-bay step of the scan preserves the invariant (non-negative
before-buffers are the spec's BufferedInterval invariant; the scan only calls
this with current at or before latest_end). -/
theorem process_bay_good
    (su : Nat → List User → List User)
    (se : Nat → List (User × Int × List String) → List (User × Int × List String))
    (db : DB) (payload : AvailabilityRequest) (tz : Int) (strategy : AssignmentStrategy)
    (employees coverers : List User) (current cand_end : Int) (seed : Nat)
    (latest_end duration_min : Int) (bay : WorkshopBay)
    (props : List AvailabilityProposal) (seen : List (Nat × Nat × Int × Int))
    (hbuf : ∀ b ∈ db.bookings, 0 ≤ b.buffer_before_min)
    (hdur : 0 ≤ duration_min) (hcur : current ≤ latest_end)
    (h : GoodState payload.allow_fragmented_parts duration_min props seen) :
    GoodState payload.allow_fragmented_parts duration_min
      (process_bay su se db payload tz strategy employees coverers current cand_end
        seed latest_end duration_min bay props seen).1
      (process_bay su se db payload tz strategy employees coverers current cand_end
        seed latest_end duration_min bay props seen).2.1 := by
  have hemit : ∀ (elig : List (User × Int × List String)) (disq : List MechanicCandidate),
      GoodState payload.allow_fragmented_parts duration_min
        (emit_contiguous payload.num_proposals bay current cand_end disq elig props seen).1
        (emit_contiguous payload.num_proposals bay current cand_end disq elig props seen).2 :=
    fun elig disq =>
      emit_contiguous_good payload.num_proposals bay current cand_end disq
        payload.allow_fragmented_parts duration_min elig props seen h
  have hfrag : ∀ (props' : List AvailabilityProposal)
      (seen' : List (Nat × Nat × Int × Int)) (ufo : List User),
      GoodState payload.allow_fragmented_parts duration_min props' seen' →
      payload.allow_fragmented_parts = true →
      (let end_limit := min latest_end (current + MAX_FRAGMENT_DAYS * 1440)
       let bay_free := bay_free_segments db bay.id [(current, end_limit)]
         payload.include_buffers
       let fr := frag_user_results db tz current end_limit duration_min bay_free ufo
       let key := dedupe_key bay.id none (frag_first_start fr.1) (frag_last_end fr.1)
       GoodState payload.allow_fragmented_parts duration_min
         (if bay_free.isEmpty then (props', seen', false)
          else if fr.1.isEmpty then (props', seen', false)
          else if seen'.contains key then (props', seen', false)
          else (props' ++ [fragmented_proposal db tz bay payload.return_candidates
              payload.max_candidates_per_slot payload.prefer_user_id fr.1 fr.2],
            seen' ++ [key], true)).1
         (if bay_free.isEmpty then (props', seen', false)
          else if fr.1.isEmpty then (props', seen', false)
          else if seen'.contains key then (props', seen', false)
          else (props' ++ [fragmented_proposal db tz bay payload.return_candidates
              payload.max_candidates_per_slot payload.prefer_user_id fr.1 fr.2],
            seen' ++ [key], true)).2.1) := by
    intro props' seen' ufo hg haf
    simp only []
    have h1440 : MAX_FRAGMENT_DAYS * 1440 = (4320 : Int) := rfl
    have hse : current ≤ min latest_end (current + MAX_FRAGMENT_DAYS * 1440) :=
      le_min hcur (by omega)
    have hbfb := bay_free_segments_bounds db bay.id current
      (min latest_end (current + MAX_FRAGMENT_DAYS * 1440)) payload.include_buffers
      hbuf hse
    split
    case isTrue hbe => exact hg
    case isFalse hbe =>
      split
      case isTrue hfe => exact hg
      case isFalse hfe =>
        split
        case isTrue hk => exact hg
        case isFalse hk =>
          refine GoodState.append hg _ ?_ ?_ ?_
          · simpa using hk
          · refine fragmented_proposal_ok db tz bay payload.return_candidates
              payload.max_candidates_per_slot payload.prefer_user_id current
              (min latest_end (current + MAX_FRAGMENT_DAYS * 1440)) duration_min
              _ _ ?_ ?_ hdur (min_le_right _ _)
            · intro hnil
              exact hfe (by rw [hnil]; rfl)
            · intro r hr
              exact frag_user_results_shape db tz current
                (min latest_end (current + MAX_FRAGMENT_DAYS * 1440)) duration_min
                (bay_free_segments db bay.id
                  [(current, min latest_end (current + MAX_FRAGMENT_DAYS * 1440))]
                  payload.include_buffers) hbfb ufo r hr
          · intro hoff
            exact absurd (haf.symm.trans hoff) (by decide)
  unfold process_bay
  simp only []
  by_cases h1 : bay_slot_is_free db bay.id current cand_end payload.include_buffers = true
  · rw [if_pos h1]
    by_cases h2 : (!(classify_users db tz current cand_end payload.prefer_user_id
        (order_users_for_slot su db coverers strategy (seed ^^^ bay.id) current
          cand_end)).1.isEmpty) = true
    · rw [if_pos h2]
      split
      next hflag => exact hemit _ _
      next hflag =>
        split
        next hoff => exact hemit _ _
        next hoff =>
          have haf : payload.allow_fragmented_parts = true := by
            cases hb : payload.allow_fragmented_parts
            · exact absurd (by rw [hb]; rfl) hoff
            · rfl
          exact hfrag _ _ _ (hemit _ _) haf
    · rw [if_neg h2]
      split
      next hflag => exact h
      next hflag =>
        split
        next hoff => exact h
        next hoff =>
          have haf : payload.allow_fragmented_parts = true := by
            cases hb : payload.allow_fragmented_parts
            · exact absurd (by rw [hb]; rfl) hoff
            · rfl
          exact hfrag _ _ _ h haf
  · rw [if_neg h1]
    split
    next hflag => exact h
    next hflag =>
      split
      next hoff => exact h
      next hoff =>
        have haf : payload.allow_fragmented_parts = true := by
          cases hb : payload.allow_fragmented_parts
          · exact absurd (by rw [hb]; rfl) hoff
          · rfl
        exact hfrag _ _ _ h haf

/-- The bays loop of one scan iteration preserves the invariant. -/
theorem process_bays_good
    (su : Nat → List User → List User)
    (se : Nat → List (User × Int × List String) → List (User × Int × List String))
    (db : DB) (payload : AvailabilityRequest) (tz : Int) (strategy : AssignmentStrategy)
    (employees coverers : List User) (current cand_end : Int) (seed : Nat)
    (latest_end duration_min : Int)
    (hbuf : ∀ b ∈ db.bookings, 0 ≤ b.buffer_before_min)
    (hdur : 0 ≤ duration_min) (hcur : current ≤ latest_end) :
    ∀ (bays : List WorkshopBay)
      (st : List AvailabilityProposal × List (Nat × Nat × Int × Int)),
      GoodState payload.allow_fragmented_parts duration_min st.1 st.2 →
      GoodState payload.allow_fragmented_parts duration_min
        (process_bays su se db payload tz strategy employees coverers current cand_end
          seed latest_end duration_min bays st).1
        (process_bays su se db payload tz strategy employees coverers current cand_end
          seed latest_end duration_min bays st).2 := by
  intro bays
  induction bays with
  | nil => intro st h; exact h
  | cons bay rest ih =>
    intro st h
    unfold process_bays
    simp only []
    split
    case isTrue hadd =>
      exact process_bay_good su se db payload tz strategy employees coverers current
        cand_end seed latest_end duration_min bay st.1 st.2 hbuf hdur hcur h
    case isFalse hadd =>
      exact ih _ (process_bay_good su se db payload tz strategy employees coverers
        current cand_end seed latest_end duration_min bay st.1 st.2 hbuf hdur hcur h)

/-- A full scan run starting from a good state returns a good proposal list. -/
theorem availability_scan_good
    (su : Nat → List User → List User)
    (se : Nat → List (User × Int × List String) → List (User × Int × List String))
    (db : DB) (payload : AvailabilityRequest) (tz : Int) (strategy : AssignmentStrategy)
    (employees : List User) (bays : List WorkshopBay) (duration_min latest_end : Int)
    (hbuf : ∀ b ∈ db.bookings, 0 ≤ b.buffer_before_min)
    (hdur : 0 < duration_min) :
    ∀ (fuel : Nat) (current : Int) (props : List AvailabilityProposal)
      (seen : List (Nat × Nat × Int × Int)),
      GoodState payload.allow_fragmented_parts duration_min props seen →
      GoodProps payload.allow_fragmented_parts duration_min
        (availability_scan su se db payload tz strategy employees bays duration_min
          latest_end fuel current props seen) := by
  intro fuel
  induction fuel with
  | zero => intro current props seen h; exact h.goodProps
  | succ fuel ih =>
    intro current props seen h
    unfold availability_scan
    simp only []
    split
    case isTrue hguard => exact h.goodProps
    case isFalse hguard =>
      have hg1 : current + duration_min ≤ latest_end := by
        rcases Decidable.em (current + duration_min ≤ latest_end) with hc | hc
        · exact hc
        · exact absurd (by rw [decide_eq_false hc]; rfl) hguard
      by_cases hco : (cheap_wallclock_cover employees current (current + duration_min)
          tz db &&
          bays.any fun b => bay_slot_is_free db b.id current (current + duration_min)
            payload.include_buffers) = true
      · rw [if_pos hco]
        simp only []
        split
        next hcov =>
          split
          next heq2 => exact h.goodProps
          next nxt heq2 => exact ih nxt props seen h
        next hcov =>
          exact ih (current + 1) _ _
            (process_bays_good su se db payload tz strategy employees _ current
              (current + duration_min) (slot_seed_of current payload.workshop_id)
              latest_end duration_min hbuf (by omega) (by omega) _ (props, seen) h)
      · rw [if_neg hco]
        split
        next heq => exact h.goodProps
        next cur2 heq =>
          have hcur2 : cur2 + duration_min ≤ latest_end :=
            next_any_bay_cover_start_le db bays employees duration_min tz 1
              latest_end payload.include_buffers _ _ _ heq
          split
          next hcov =>
            split
            next heq2 => exact h.goodProps
            next nxt heq2 => exact ih nxt props seen h
          next hcov =>
            exact ih (cur2 + 1) _ _
              (process_bays_good su se db payload tz strategy employees _ cur2
                (cur2 + duration_min) (slot_seed_of cur2 payload.workshop_id)
                latest_end duration_min hbuf (by omega)
                (le_trans (le_add_of_nonneg_right (le_of_lt hdur)) hcur2)
                _ (props, seen) h)

/-- Every successful availability_auto response satisfies the planner
invariant for the duration resolved from the service item named by the
request (non-negative before-buffers are the spec's interval invariant). -/
theorem availability_auto_ok_good
    (su : Nat → List User → List User)
    (se : Nat → List (User × Int × List String) → List (User × Int × List String))
    (db : DB) (payload : AvailabilityRequest) (now : Int)
    (resp : AvailabilityResponse)
    (hbuf : ∀ b ∈ db.bookings, 0 ≤ b.buffer_before_min)
    (hok : availability_auto su se db payload now = .ok resp) :
    ∃ si, db.service_items.find? (fun s => s.id == payload.service_item_id &&
        s.workshop_id == payload.workshop_id) = some si ∧
      0 < resolved_duration payload si ∧
      GoodProps payload.allow_fragmented_parts (resolved_duration payload si)
        resp.proposals := by
  unfold availability_auto at hok
  split at hok
  next e heq => exact Except.noConfusion hok
  next ws heq =>
    simp only [] at hok
    split at hok
    next heq2 => exact Except.noConfusion hok
    next si hsi =>
      refine ⟨si, hsi, ?_⟩
      split at hok
      next hdneg => exact Except.noConfusion hok
      next hdneg =>
        have hdp : 0 < resolved_duration payload si := by omega
        refine ⟨hdp, ?_⟩
        split at hok
        next hbays =>
          injection hok with hok
          rw [← hok]
          refine ⟨by simp, ?_, ?_⟩
          · intro p hp; exact absurd hp (List.not_mem_nil p)
          · intro _ p hp; exact absurd hp (List.not_mem_nil p)
        next hbays =>
          split at hok
          next hemp =>
            injection hok with hok
            rw [← hok]
            refine ⟨by simp, ?_, ?_⟩
            · intro p hp; exact absurd hp (List.not_mem_nil p)
            · intro _ p hp; exact absurd hp (List.not_mem_nil p)
          next hemp =>
            split at hok
            next hwin => exact Except.noConfusion hok
            next hwin =>
              injection hok with hok
              rw [← hok]
              exact availability_scan_good su se db payload
                (tz_for_workshop ws) (payload.assignment_strategy.getD .random)
                (employees_in_workshop db payload.workshop_id)
                (candidate_bays_for_vehicle db payload.workshop_id)
                (resolved_duration payload si) _ hbuf hdp _ _ [] []
                (GoodState.nil _ _)

/-- The planner response on db_plain/req_two: two slots one scan step apart
for the same bay and mechanic. -/
def C4_meta : SlotMeta :=
  { recommended_user_id := some 1
    candidates := none
    diagnostics := some { disqualified := none } }

/-- The two overlapping slots of the db_plain/req_two run. -/
def C4_response : AvailabilityResponse :=
  { proposals := [
      { bay_id := 1
        start_at := 420
        end_at := 480
        assigned_user_id := some 1
        notes := some "Bay 1"
        parts := none
        meta := some C4_meta },
      { bay_id := 1
        start_at := 421
        end_at := 481
        assigned_user_id := some 1
        notes := some "Bay 1"
        parts := none
        meta := some C4_meta }]
    reason_if_empty := none }

/-- C4 counterexample: with two requested proposals the 1-minute scan step
emits [420,480) and [421,481) for the same bay 1 and the same mechanic 1 —
two proposals of one response for the same bay/mechanic pair whose intervals
overlap, refuting the claimed non-overlap half of the property. -/
theorem C4_claim_counterexample :
    availability_auto id_shuffle id_shuffle db_plain req_two 0 = .ok C4_response ∧
    ∃ p ∈ C4_response.proposals, ∃ q ∈ C4_response.proposals,
      p.bay_id = q.bay_id ∧ p.assigned_user_id = q.assigned_user_id ∧
      p.start_at < q.start_at ∧ q.start_at < p.end_at :=
  ⟨rfl, by decide⟩

/-- C4 (amended): proposals of every successful FindAvailability response
are deduplicated by (bay, mechanic-or-0, start, end): the dedupe keys of the
returned proposals are pairwise distinct, so the identical slot is never
returned twice across scan steps.  The claim's stronger non-overlap of
same-bay/same-mechanic proposals fails: adjacent scan steps emit overlapping
slots for the same pair (see the counterexample). -/
theorem C4_dedupe_keys_distinct
    (su : Nat → List User → List User)
    (se : Nat → List (User × Int × List String) → List (User × Int × List String))
    (db : DB) (payload : AvailabilityRequest) (now : Int)
    (resp : AvailabilityResponse)
    (hbuf : ∀ b ∈ db.bookings, 0 ≤ b.buffer_before_min)
    (hok : availability_auto su se db payload now = .ok resp) :
    (resp.proposals.map proposal_key).Nodup := by
  obtain ⟨si, -, -, hgood⟩ :=
    availability_auto_ok_good su se db payload now resp hbuf hok
  exact hgood.1

/-- Witness for C4: the dedupe-key theorem applied to the concrete
db_plain/req_two run — the two emitted proposals carry distinct keys. -/
theorem C4_witness : (C4_response.proposals.map proposal_key).Nodup :=
  C4_dedupe_keys_distinct id_shuffle id_shuffle db_plain req_two 0 C4_response
    (by decide) rfl

/-- The mechanic candidate row of the fragmented scenario. -/
def C5_candidate : MechanicCandidate :=
  { user_id := 1
    score := 80
    rank := 1
    reasons := ["least_busy:0"] }

/-- The planner response on db_frag/req_frag: one two-part proposal filling
the 40-minute and 50-minute gaps of bay 1, with the pause stated. -/
def C5_frag_response : AvailabilityResponse :=
  { proposals := [
      { bay_id := 1
        start_at := 420
        end_at := 650
        assigned_user_id := none
        notes := some "Bay 1 (paus: 08:40–11:00)"
        parts := some [⟨420, 460⟩, ⟨600, 650⟩]
        meta := some
          { recommended_user_id := some 1
            candidates := some [C5_candidate]
            diagnostics := some { disqualified := none } } }]
    reason_if_empty := none }

/-- The planner response on db_frag/req_frag_off: the slot moves contiguously
to bay 2, with no parts. -/
def C5_contig_response : AvailabilityResponse :=
  { proposals := [
      { bay_id := 2
        start_at := 420
        end_at := 510
        assigned_user_id := some 1
        notes := some "Bay 2"
        parts := none
        meta := some
          { recommended_user_id := some 1
            candidates := none
            diagnostics := some { disqualified := none } } }]
    reason_if_empty := none }

/-- C5: fragmented (multi-part) proposals are emitted only when
allow_fragmented_parts is true — with the flag off every proposal of a
successful response has parts = none — and every proposal carrying parts has
1..MAX_FRAGMENT_PARTS parts of at least MIN_FRAGMENT_MINUTES minutes each,
all inside a MAX_FRAGMENT_DAYS-day window anchored at or before the proposal
start, with durations summing exactly to the resolved duration; in the
90-minute scenario over a 40- and a 50-minute gap the planner emits exactly
the 2-part proposal totalling 90 minutes with the gap stated in the notes,
and with the flag off it does not (the slot moves contiguously to bay 2). -/
theorem C5_fragmentation_constraints :
    (∀ (su : Nat → List User → List User)
       (se : Nat → List (User × Int × List String) → List (User × Int × List String))
       (db : DB) (payload : AvailabilityRequest) (now : Int)
       (resp : AvailabilityResponse),
      (∀ b ∈ db.bookings, 0 ≤ b.buffer_before_min) →
      availability_auto su se db payload now = .ok resp →
      (payload.allow_fragmented_parts = false →
        ∀ p ∈ resp.proposals, p.parts = none) ∧
      ∃ si, db.service_items.find? (fun s => s.id == payload.service_item_id &&
          s.workshop_id == payload.workshop_id) = some si ∧
        ∀ p ∈ resp.proposals, FragOk (resolved_duration payload si) p) ∧
    availability_auto id_shuffle id_shuffle db_frag req_frag 0 =
      .ok C5_frag_response ∧
    (∃ p ∈ C5_frag_response.proposals, ∃ parts, p.parts = some parts ∧
      parts.length = 2 ∧
      (parts.map fun q => q.end_at - q.start_at).sum =
        resolved_duration req_frag si60) ∧
    availability_auto id_shuffle id_shuffle db_frag req_frag_off 0 =
      .ok C5_contig_response ∧
    (∀ p ∈ C5_contig_response.proposals, p.parts = none) := by
  refine ⟨?_, rfl, by decide, rfl, by decide⟩
  intro su se db payload now resp hbuf hok
  obtain ⟨si, hsi, -, hgood⟩ :=
    availability_auto_ok_good su se db payload now resp hbuf hok
  exact ⟨hgood.2.2, si, hsi, hgood.2.1⟩

/-- Witness for C5: the universal half applied at the fragmentation
scenario — the flag-off run has no parts, and every proposal of the flag-on
run is a legal fragment shape for the 90-minute resolved duration. -/
theorem C5_witness :
    (req_frag_off.allow_fragmented_parts = false →
      ∀ p ∈ C5_contig_response.proposals, p.parts = none) ∧
    ∃ si, db_frag.service_items.find? (fun s =>
        s.id == req_frag.service_item_id &&
        s.workshop_id == req_frag.workshop_id) = some si ∧
      ∀ p ∈ C5_frag_response.proposals, FragOk (resolved_duration req_frag si) p :=
  ⟨(C5_fragmentation_constraints.1 id_shuffle id_shuffle db_frag req_frag_off 0
      C5_contig_response (by decide) rfl).1,
    (C5_fragmentation_constraints.1 id_shuffle id_shuffle db_frag req_frag 0
      C5_frag_response (by decide) rfl).2⟩
